import Mathlib

/-!
# Verification of the `replay` HTTP record/replay library

A shallow embedding of the library's three components and proofs about them:

* the fingerprint generator (`recording_path.go`): `updateHash`, `RequestCRC`,
  `RecordingPath` with CRC-32 (IEEE) checksums, query escaping and
  `filepath.Join`/`Clean` path assembly;
* the recording store (`recording.go`): the JSON-header-plus-raw-body file
  format, `Recording.Save` (atomic write via temp file and rename) and
  `LoadRecording`;
* the intercepting transport (`replay.go`): `RoundTripper.RoundTrip` with its
  three operating modes and generic-path fallback.

Machine integers are modelled as `Nat` (the CRC register stays below `2 ^ 32`
by construction); byte strings are `List Nat`; fallible operations return
`Except`; the one runtime panic reachable in `RequestCRC` (calling a nil
`GetBody`) is a distinguished result constructor.
-/

set_option maxRecDepth 20000

namespace Replay

/-! ## Bytes and strings

Go writes UTF-8 bytes of its strings into hashes and files; `utf8Bytes`
is the UTF-8 encoding of a code point. -/

def utf8Bytes (c : Nat) : List Nat :=
  if c < 0x80 then [c]
  else if c < 0x800 then [0xC0 + c / 64, 0x80 + c % 64]
  else if c < 0x10000 then [0xE0 + c / 4096, 0x80 + c / 64 % 64, 0x80 + c % 64]
  else [0xF0 + c / 262144, 0x80 + c / 4096 % 64, 0x80 + c / 64 % 64, 0x80 + c % 64]

/-- The UTF-8 bytes of a string, as Go's `[]byte(s)` conversion produces. -/
def strBytes (s : String) : List Nat :=
  s.data.flatMap (fun c => utf8Bytes c.toNat)

/-! ## CRC-32 (IEEE)

`hash/crc32` with the IEEE polynomial: reflected polynomial `0xEDB88320`,
initial register `0xFFFFFFFF`, bitwise update, final complement in `Sum32`.
The register is a `Nat` that stays below `2 ^ 32`. -/

def crcPoly : Nat := 0xEDB88320

def crcRound (c : Nat) : Nat :=
  if c % 2 = 1 then (c / 2) ^^^ crcPoly else c / 2

def crcRounds : Nat → Nat → Nat
  | 0, c => c
  | n + 1, c => crcRounds n (crcRound c)

def crcByte (c b : Nat) : Nat := crcRounds 8 (c ^^^ b % 256)

/-- `h.Write(bs)`: feed bytes into the running CRC register. -/
def crcWrite (c : Nat) (bs : List Nat) : Nat := bs.foldl crcByte c

def crcInit : Nat := 0xFFFFFFFF

/-- `Sum32` of a register value. -/
def crcSum32 (c : Nat) : Nat := c ^^^ 0xFFFFFFFF

/-- The IEEE CRC-32 of a byte sequence. -/
def crc32 (bs : List Nat) : Nat := crcSum32 (crcWrite crcInit bs)

/-! ## Decimal formatting (`strconv.FormatUint(x, 10)` / `strconv.AppendInt`) -/

def digitsRevFuel : Nat → Nat → List Nat
  | 0, _ => []
  | f + 1, n => if n = 0 then [] else n % 10 :: digitsRevFuel f (n / 10)

/-- ASCII decimal digits of a natural number, most significant first. -/
def natDecBytes (n : Nat) : List Nat :=
  if n = 0 then [0x30] else ((digitsRevFuel n n).reverse).map (· + 0x30)

def natDecStr (n : Nat) : String :=
  String.mk ((natDecBytes n).map Char.ofNat)

/-- ASCII decimal bytes of an integer, with a leading minus sign if negative. -/
def intDecBytes (i : Int) : List Nat :=
  if i < 0 then 0x2D :: natDecBytes i.natAbs else natDecBytes i.natAbs

/-! ## `url.QueryEscape`

Bytes that `net/url` leaves unescaped in a query component: ASCII letters,
digits, `-`, `_`, `.`, `~`. Space becomes `+`; every other byte becomes
percent-encoding with upper-case hex digits. -/

def queryUnescapedByte (b : Nat) : Bool :=
  (0x41 ≤ b && b ≤ 0x5A) || (0x61 ≤ b && b ≤ 0x7A) || (0x30 ≤ b && b ≤ 0x39) ||
    b = 0x2D || b = 0x5F || b = 0x2E || b = 0x7E

def hexUpperDigit (d : Nat) : Nat := if d < 10 then 0x30 + d else 0x37 + d

def queryEscapeBytes (bs : List Nat) : List Nat :=
  bs.flatMap fun b =>
    if queryUnescapedByte b then [b]
    else if b = 0x20 then [0x2B]
    else [0x25, hexUpperDigit (b / 16), hexUpperDigit (b % 16)]

def queryEscape (s : String) : String :=
  String.mk ((queryEscapeBytes (strBytes s)).map Char.ofNat)

/-! ## `strings.Split`, `filepath.Clean` and `filepath.Join`

The platform is modelled as Unix: `os.PathSeparator` is `/`. `clean` follows
Go's `path/filepath.Clean` (drop empty and `.` segments, resolve `..` against
the segment stack, `.` for an empty result), and `filepathJoin` is the binary
`filepath.Join` the source uses: join non-empty elements with `/`, then
clean. -/

def splitSlash (s : String) : List String :=
  s.data.foldr
    (fun c acc =>
      if c = '/' then "" :: acc
      else
        match acc with
        | h :: t => String.mk (c :: h.data) :: t
        | [] => [String.mk [c]])
    [""]

def strJoin (sep : String) : List String → String
  | [] => ""
  | [x] => x
  | x :: xs => x ++ sep ++ strJoin sep xs

def cleanSegs : Bool → List String → List String → List String
  | _, [], acc => acc.reverse
  | rooted, s :: rest, acc =>
    if s = "" ∨ s = "." then cleanSegs rooted rest acc
    else if s = ".." then
      match acc with
      | t :: acc2 =>
        if t = ".." then cleanSegs rooted rest (s :: t :: acc2)
        else cleanSegs rooted rest acc2
      | [] =>
        if rooted then cleanSegs rooted rest []
        else cleanSegs rooted rest [s]
    else cleanSegs rooted rest (s :: acc)

def isRooted (s : String) : Bool :=
  match s.data with
  | c :: _ => c = '/'
  | [] => false

def clean (path : String) : String :=
  if path = "" then "."
  else
    let rooted := isRooted path
    let joined := strJoin "/" (cleanSegs rooted (splitSlash path) [])
    if rooted then "/" ++ joined
    else if joined = "" then "." else joined

def filepathJoin (a b : String) : String :=
  if a = "" then (if b = "" then "" else clean b) else clean (a ++ "/" ++ b)

/-! ## The fingerprint generator (`recording_path.go`) -/

/-- `StringSet`: a set of strings (membership is all the code uses). -/
abbrev StringSet := List String

def StringSet.mem (ss : StringSet) (k : String) : Bool :=
  List.contains ss k

/-- `DefaultOmitHeaders`. -/
def defaultOmitHeaders : StringSet :=
  ["Authorization", "Connection", "Date", "Proxy-Authorization",
   "Transfer-Encoding", "Upgrade"]

/-- A multimap as consumed by `updateHash`: `url.Values` / `http.Header`,
carried as an association list so that insertion order is representable.
Go's maps have distinct keys; theorems assume `Nodup` on the key list. -/
abbrev MultiMap := List (String × List String)

def MultiMap.get (m : MultiMap) (k : String) : List String :=
  (List.lookup k m).getD []

def MultiMap.keys (m : MultiMap) : List String :=
  m.map Prod.fst

/-- `hashableMap.updateHash`: collect the non-excluded keys, sort them, and
feed each key followed by all of its values (in stored order) into the CRC
register. Returns the new register and whether any key was fed. -/
def updateHash (m : MultiMap) (h : Nat) (excludes : StringSet) : Nat × Bool :=
  let values := List.insertionSort (· ≤ ·)
    ((MultiMap.keys m).filter (fun k => !StringSet.mem excludes k))
  let h' := values.foldl
    (fun h k => (MultiMap.get m k).foldl
      (fun h v => crcWrite h (strBytes v)) (crcWrite h (strBytes k))) h
  (h', values.length > 0)

/-- A request body stream (`req.Body`): content bytes, current read offset,
whether the dynamic type implements `io.Seeker`, and failure flags for `Read`
and `Seek`. A read failure is modelled as failing before producing bytes. -/
structure BodyStream where
  bytes : List Nat
  pos : Nat
  seekable : Bool
  readErr : Bool
  seekErr : Bool
deriving DecidableEq, Repr

structure URL where
  scheme : String
  host : String
  path : String
  query : MultiMap
deriving DecidableEq, Repr

instance : DecidableEq (Except Unit BodyStream) := fun a b =>
  match a, b with
  | .error u, .error v => decidable_of_iff (u = v) (by simp)
  | .ok u, .ok v => decidable_of_iff (u = v) (by simp)
  | .error _, .ok _ => isFalse (by simp)
  | .ok _, .error _ => isFalse (by simp)

/-- An `*http.Request` as far as the library inspects it. `getBody` models the
`GetBody` field: `none` is a nil function; `some r` is a function whose call
returns `r` (a fresh stream or an error). -/
structure Request where
  method : String
  url : URL
  header : MultiMap
  body : Option BodyStream
  getBody : Option (Except Unit BodyStream)
deriving DecidableEq, Repr

/-- `PathGenerator`. The body-munge hook is modelled as a function on the
buffered body bytes (it only changes what is hashed, never the request). -/
structure PathGenerator where
  omitHeaders : StringSet
  omitQuery : StringSet
  mungeRequestBody : Option (List Nat → List Nat)

/-- `NewPathGenerator`. -/
def newPathGenerator : PathGenerator :=
  { omitHeaders := defaultOmitHeaders, omitQuery := [], mungeRequestBody := none }

inductive CrcErr where
  | readFail
  | seekFail
  | getBodyFail
deriving DecidableEq, Repr

/-- Outcome of `RequestCRC`: a checksum string together with the request in
its post-call state (its body may have been buffered, seeked or re-obtained),
an error, or the runtime panic that calling a nil `GetBody` raises. -/
inductive CrcResult where
  | ok (crc : String) (req : Request)
  | err (e : CrcErr)
  | panik
deriving DecidableEq, Repr

/-- The checksum component of a successful `RequestCRC` call. -/
def CrcResult.checksum? : CrcResult → Option String
  | .ok crc _ => some crc
  | _ => none

/-- The remaining (unread) bytes of a stream. -/
def BodyStream.remaining (b : BodyStream) : List Nat :=
  b.bytes.drop b.pos

/-- The replacement stream built by `ioutil.NopCloser(bytes.NewReader(body))`
after buffering. `ioutil.NopCloser` does not forward `Seek`, so the dynamic
type of the replacement is not an `io.Seeker`. -/
def BodyStream.buffered (b : BodyStream) : BodyStream :=
  { bytes := b.remaining, pos := 0, seekable := false,
    readErr := false, seekErr := false }

/-- The final `hasHash` test and `Sum32` formatting of `RequestCRC`. -/
def crcFinish (h' : Nat) (hasHash : Bool) (n : Nat) (req' : Request) : CrcResult :=
  if hasHash || n > 0 then CrcResult.ok (natDecStr (crcSum32 h')) req'
  else CrcResult.ok "" req'

/-- The tail of `RequestCRC` from `io.Copy(h, r)` on: hash the (possibly
munged) body bytes, then restore the body — `Seek(0)` when the stream is a
seeker, otherwise close it and replace it with `req.GetBody()`.
`req.body = some b` at every call site. -/
def crcBodyPhase (p : PathGenerator) (req : Request) (b : BodyStream)
    (h : Nat) (hasHash : Bool) : CrcResult :=
  let hashed :=
    match p.mungeRequestBody with
    | none => b.remaining
    | some f => f b.remaining
  let copyOk := !b.readErr
  let n := if copyOk then hashed.length else 0
  let h' := if copyOk then crcWrite h hashed else h
  if b.seekable then
    if !copyOk then .err .readFail
    else if b.seekErr then .err .seekFail
    else crcFinish h' hasHash n { req with body := some { b with pos := 0 } }
  else
    match req.getBody with
    | none => .panik
    | some (.error _) => .err .getBodyFail
    | some (.ok fresh) => crcFinish h' hasHash n { req with body := some fresh }

/-- `PathGenerator.RequestCRC`. -/
def requestCRC (p : PathGenerator) (req : Request) : CrcResult :=
  let qh := updateHash req.url.query crcInit p.omitQuery
  let hh := updateHash req.header qh.1 p.omitHeaders
  let hasHash := hh.2 || qh.2
  match req.body with
  | none => crcFinish hh.1 hasHash 0 req
  | some b =>
    if b.seekable = false ∧ req.getBody = none then
      if b.readErr then .err .readFail
      else
        crcBodyPhase p { req with body := some b.buffered } b.buffered hh.1 hasHash
    else
      crcBodyPhase p req b hh.1 hasHash

/-- `RecordingPath`. -/
structure RecordingPath where
  dir : String
  checksum : String
deriving DecidableEq, Repr

/-- `RecordingPath.Path`. -/
def RecordingPath.path (r : RecordingPath) : String :=
  if r.checksum ≠ "" then
    filepathJoin r.dir ("request." ++ r.checksum ++ ".json")
  else
    filepathJoin r.dir "request.json"

/-- `RecordingPath.GenericPath`. -/
def RecordingPath.genericPath (r : RecordingPath) : String :=
  filepathJoin r.dir "request.json"

/-- The ordered directory segments `PathGenerator.RecordingPath` builds. -/
def pathParts (req : Request) : List String :=
  (if req.url.scheme ≠ "" then [req.url.scheme] else []) ++
  (if req.url.host ≠ "" then [queryEscape req.url.host] else []) ++
  (if req.method ≠ "" then [req.method] else []) ++
  ((splitSlash req.url.path).filter (· ≠ "")).map queryEscape

inductive PathResult where
  | ok (rp : RecordingPath) (req : Request)
  | err (e : CrcErr)
  | panik
deriving DecidableEq, Repr

/-- The `RecordingPath` component of a successful `RecordingPath` call. -/
def PathResult.recPath? : PathResult → Option RecordingPath
  | .ok rp _ => some rp
  | _ => none

/-- `PathGenerator.RecordingPath`. -/
def recordingPath (p : PathGenerator) (req : Request) : PathResult :=
  match requestCRC p req with
  | .err e => .err e
  | .panik => .panik
  | .ok crc req' => .ok { dir := strJoin "/" (pathParts req), checksum := crc } req'

/-! ## The recording store (`recording.go`)

On-disk format: the indented JSON object `encoding/json` produces for the
`Recording` struct (fields in declaration order, `omitempty` on all of them,
map keys sorted, HTML characters escaped), a newline from `Encoder.Encode`,
then the raw body bytes. -/

/-- A `Recording`: the serialized fields of an `http.Response` plus the raw
body bytes. -/
structure Recording where
  status : String
  statusCode : Int
  proto : String
  protoMajor : Int
  protoMinor : Int
  headers : MultiMap
  body : List Nat
deriving DecidableEq, Repr

def hexLowerDigit (d : Nat) : Nat := if d < 10 then 0x30 + d else 0x57 + d

/-- How `encoding/json` (with its default HTML escaping) writes one character
of a string value. -/
def escCharBytes (c : Char) : List Nat :=
  let n := c.toNat
  if n = 0x22 then [0x5C, 0x22]
  else if n = 0x5C then [0x5C, 0x5C]
  else if n = 0x0A then [0x5C, 0x6E]
  else if n = 0x0D then [0x5C, 0x72]
  else if n = 0x09 then [0x5C, 0x74]
  else if n < 0x20 ∨ n = 0x3C ∨ n = 0x3E ∨ n = 0x26 then
    [0x5C, 0x75, 0x30, 0x30, hexLowerDigit (n / 16), hexLowerDigit (n % 16)]
  else if n = 0x2028 ∨ n = 0x2029 then
    [0x5C, 0x75, 0x32, 0x30, 0x32, hexLowerDigit (n % 16)]
  else utf8Bytes n

/-- A JSON string literal: quote, escaped characters, quote. -/
def jsonStrBytes (s : String) : List Nat :=
  0x22 :: s.data.flatMap escCharBytes ++ [0x22]

def joinBytes (sep : List Nat) : List (List Nat) → List Nat
  | [] => []
  | [x] => x
  | x :: xs => x ++ sep ++ joinBytes sep xs

/-- A newline followed by `k` spaces: the indentation `SetIndent("", "  ")`
emits before a line nested at `k / 2` levels. -/
def nlIndent (k : Nat) : List Nat := 0x0A :: List.replicate k 0x20

/-- A JSON array of strings as indented at nesting depth 2 (a header value). -/
def jsonArrBytes (vs : List String) : List Nat :=
  match vs with
  | [] => [0x5B, 0x5D]
  | _ =>
    [0x5B] ++ nlIndent 6 ++ joinBytes ([0x2C] ++ nlIndent 6) (vs.map jsonStrBytes) ++
      nlIndent 4 ++ [0x5D]

def sortByKey (m : MultiMap) : MultiMap :=
  List.insertionSort (fun a b : String × List String => a.1 ≤ b.1) m

/-- The `headers` map as `encoding/json` writes it: keys sorted, nested at
depth 1. The input is expected already key-sorted. -/
def jsonHeadersBytes (h : MultiMap) : List Nat :=
  match h with
  | [] => [0x7B, 0x7D]
  | _ =>
    [0x7B] ++ nlIndent 4 ++
      joinBytes ([0x2C] ++ nlIndent 4)
        (h.map fun kv => jsonStrBytes kv.1 ++ [0x3A, 0x20] ++ jsonArrBytes kv.2) ++
      nlIndent 2 ++ [0x7D]

/-- One field of the top-level JSON object. -/
inductive JField where
  | jstr (name : String) (v : String)
  | jint (name : String) (v : Int)
  | jmap (name : String) (h : MultiMap)
deriving Repr

def JField.name : JField → String
  | .jstr n _ => n
  | .jint n _ => n
  | .jmap n _ => n

def JField.valBytes : JField → List Nat
  | .jstr _ v => jsonStrBytes v
  | .jint _ v => intDecBytes v
  | .jmap _ h => jsonHeadersBytes h

def encField (f : JField) : List Nat :=
  jsonStrBytes f.name ++ [0x3A, 0x20] ++ f.valBytes

/-- The fields `encoding/json` emits for a `Recording`: declaration order,
zero values omitted (`omitempty`), map keys sorted. -/
def recordingFields (r : Recording) : List JField :=
  (if r.status ≠ "" then [.jstr "status" r.status] else []) ++
  (if r.statusCode ≠ 0 then [.jint "status_code" r.statusCode] else []) ++
  (if r.proto ≠ "" then [.jstr "proto" r.proto] else []) ++
  (if r.protoMajor ≠ 0 then [.jint "proto_major" r.protoMajor] else []) ++
  (if r.protoMinor ≠ 0 then [.jint "proto_minor" r.protoMinor] else []) ++
  (if r.headers ≠ [] then [.jmap "headers" (sortByKey r.headers)] else [])

def jsonObjBytes (fl : List JField) : List Nat :=
  match fl with
  | [] => [0x7B, 0x7D]
  | _ =>
    [0x7B] ++ nlIndent 2 ++ joinBytes ([0x2C] ++ nlIndent 2) (fl.map encField) ++
      nlIndent 0 ++ [0x7D]

/-- The JSON header block of a `Recording`. -/
def encodeRecordingJson (r : Recording) : List Nat :=
  jsonObjBytes (recordingFields r)

/-- The full file `Save` writes: JSON block, the newline `Encoder.Encode`
appends, then the raw body bytes. -/
def saveBytes (r : Recording) : List Nat :=
  encodeRecordingJson r ++ [0x0A] ++ r.body

/-! ### The JSON reader (`json.Decoder.Decode` as `LoadRecording` uses it)

A byte-level parser for the subset of JSON the `Recording` struct decodes
into. It consumes exactly the top-level object and leaves everything after
the closing brace unread, as the streaming decoder does. Loops take explicit
fuel; one unit is spent per element, so `length + 1` always suffices. -/

def isWsByte (b : Nat) : Bool := b = 0x20 || b = 0x0A || b = 0x09 || b = 0x0D

def skipWs : List Nat → List Nat
  | [] => []
  | b :: rest => if isWsByte b then skipWs rest else b :: rest

def hexVal (b : Nat) : Option Nat :=
  if 0x30 ≤ b ∧ b ≤ 0x39 then some (b - 0x30)
  else if 0x61 ≤ b ∧ b ≤ 0x66 then some (b - 0x57)
  else if 0x41 ≤ b ∧ b ≤ 0x46 then some (b - 0x37)
  else none

def validCp (n : Nat) : Bool := n < 0xD800 || (0xE000 ≤ n && n < 0x110000)

def escCode (e : Nat) : Option Char :=
  if e = 0x22 then some '"'
  else if e = 0x5C then some '\\'
  else if e = 0x2F then some '/'
  else if e = 0x62 then some (Char.ofNat 8)
  else if e = 0x66 then some (Char.ofNat 12)
  else if e = 0x6E then some '\n'
  else if e = 0x72 then some '\r'
  else if e = 0x74 then some '\t'
  else none

/-- Decode one string character that starts with byte `b` (not a quote):
an escape sequence or a UTF-8 sequence. Returns the character and the
remaining bytes. -/
def strChunk (b : Nat) (rest : List Nat) : Option (Char × List Nat) :=
  if b = 0x5C then
    match rest with
    | e :: rest2 =>
      if e = 0x75 then
        match rest2 with
        | h1 :: h2 :: h3 :: h4 :: rest3 =>
          match hexVal h1, hexVal h2, hexVal h3, hexVal h4 with
          | some d1, some d2, some d3, some d4 =>
            let n := ((d1 * 16 + d2) * 16 + d3) * 16 + d4
            if validCp n then some (Char.ofNat n, rest3) else none
          | _, _, _, _ => none
        | _ => none
      else
        match escCode e with
        | some c => some (c, rest2)
        | none => none
    | [] => none
  else if b < 0x20 then none
  else if b < 0x80 then some (Char.ofNat b, rest)
  else if b < 0xC0 then none
  else if b < 0xE0 then
    match rest with
    | b2 :: rest2 =>
      if 0x80 ≤ b2 ∧ b2 < 0xC0 then
        let n := (b - 0xC0) * 64 + (b2 - 0x80)
        if 0x80 ≤ n then some (Char.ofNat n, rest2) else none
      else none
    | [] => none
  else if b < 0xF0 then
    match rest with
    | b2 :: b3 :: rest2 =>
      if (0x80 ≤ b2 ∧ b2 < 0xC0) ∧ (0x80 ≤ b3 ∧ b3 < 0xC0) then
        let n := (b - 0xE0) * 4096 + (b2 - 0x80) * 64 + (b3 - 0x80)
        if 0x800 ≤ n ∧ validCp n then some (Char.ofNat n, rest2) else none
      else none
    | _ => none
  else if b < 0xF8 then
    match rest with
    | b2 :: b3 :: b4 :: rest2 =>
      if (0x80 ≤ b2 ∧ b2 < 0xC0) ∧ (0x80 ≤ b3 ∧ b3 < 0xC0) ∧ (0x80 ≤ b4 ∧ b4 < 0xC0) then
        let n := (b - 0xF0) * 262144 + (b2 - 0x80) * 4096 + (b3 - 0x80) * 64 + (b4 - 0x80)
        if 0x10000 ≤ n ∧ n < 0x110000 then some (Char.ofNat n, rest2) else none
      else none
    | _ => none
  else none

/-- Parse the body of a JSON string after the opening quote, decoding one
character per fuel unit, up to and including the closing quote. -/
def parseStrBodyF : Nat → List Nat → Option (List Char × List Nat)
  | 0, _ => none
  | fuel + 1, l =>
    match l with
    | [] => none
    | b :: rest =>
      if b = 0x22 then some ([], rest)
      else
        match strChunk b rest with
        | some (c, rest2) =>
          (parseStrBodyF fuel rest2).map (fun p => (c :: p.1, p.2))
        | none => none

/-- Parse the body of a JSON string after the opening quote. A character
consumes at least one byte, so `length + 1` fuel always suffices. -/
def parseStrBody (l : List Nat) : Option (List Char × List Nat) :=
  parseStrBodyF (l.length + 1) l

/-- Parse a JSON string (leading whitespace allowed). -/
def parseStr (l : List Nat) : Option (String × List Nat) :=
  match skipWs l with
  | 0x22 :: r => (parseStrBody r).map (fun p => (String.mk p.1, p.2))
  | _ => none

def isDigitByte (b : Nat) : Bool := 0x30 ≤ b && b ≤ 0x39

def digitsLoop (acc : Nat) : List Nat → Nat × List Nat
  | [] => (acc, [])
  | b :: rest =>
    if isDigitByte b then digitsLoop (acc * 10 + (b - 0x30)) rest else (acc, b :: rest)

def parseNat (l : List Nat) : Option (Nat × List Nat) :=
  match l with
  | b :: _ => if isDigitByte b then some (digitsLoop 0 l) else none
  | [] => none

/-- Parse a JSON integer (leading whitespace allowed). -/
def parseInt (l : List Nat) : Option (Int × List Nat) :=
  match skipWs l with
  | 0x2D :: rest => (parseNat rest).map (fun p => (-(p.1 : Int), p.2))
  | l' => (parseNat l').map (fun p => ((p.1 : Int), p.2))

def parseStrArrElems : Nat → List Nat → Option (List String × List Nat)
  | 0, _ => none
  | fuel + 1, l =>
    match parseStr l with
    | none => none
    | some (s, r) =>
      match skipWs r with
      | 0x2C :: r2 => (parseStrArrElems fuel r2).map (fun p => (s :: p.1, p.2))
      | 0x5D :: r2 => some ([s], r2)
      | _ => none

/-- Parse a JSON array of strings. -/
def parseStrArr (l : List Nat) : Option (List String × List Nat) :=
  match skipWs l with
  | 0x5B :: r =>
    match skipWs r with
    | 0x5D :: r2 => some ([], r2)
    | r2 => parseStrArrElems (r2.length + 1) r2
  | _ => none

def parseHdrFields : Nat → List Nat → Option (MultiMap × List Nat)
  | 0, _ => none
  | fuel + 1, l =>
    match parseStr l with
    | none => none
    | some (k, r) =>
      match skipWs r with
      | 0x3A :: r2 =>
        match parseStrArr r2 with
        | none => none
        | some (vs, r3) =>
          match skipWs r3 with
          | 0x2C :: r4 => (parseHdrFields fuel r4).map (fun p => ((k, vs) :: p.1, p.2))
          | 0x7D :: r4 => some ([(k, vs)], r4)
          | _ => none
      | _ => none

/-- Parse the `headers` object into an association list in file order. -/
def parseHdrs (l : List Nat) : Option (MultiMap × List Nat) :=
  match skipWs l with
  | 0x7B :: r =>
    match skipWs r with
    | 0x7D :: r2 => some ([], r2)
    | r2 => parseHdrFields (r2.length + 1) r2
  | _ => none

def scalarDelim (b : Nat) : Bool := b = 0x2C || b = 0x7D || b = 0x5D || isWsByte b

def dropScalar : List Nat → List Nat
  | [] => []
  | b :: rest => if scalarDelim b then b :: rest else dropScalar rest

def skipScalar : List Nat → Option (List Nat)
  | [] => none
  | b :: rest => if scalarDelim b then none else some (dropScalar rest)

mutual

def skipValue : Nat → List Nat → Option (List Nat)
  | 0, _ => none
  | fuel + 1, l =>
    match skipWs l with
    | 0x22 :: r => (parseStrBody r).map Prod.snd
    | 0x7B :: r => skipObjRest fuel r
    | 0x5B :: r => skipArrRest fuel r
    | l' => skipScalar l'

def skipObjRest : Nat → List Nat → Option (List Nat)
  | 0, _ => none
  | fuel + 1, r =>
    match skipWs r with
    | 0x7D :: r2 => some r2
    | l' =>
      match parseStr l' with
      | none => none
      | some (_, r2) =>
        match skipWs r2 with
        | 0x3A :: r3 =>
          match skipValue fuel r3 with
          | none => none
          | some r4 =>
            match skipWs r4 with
            | 0x2C :: r5 => skipObjRest fuel r5
            | 0x7D :: r5 => some r5
            | _ => none
        | _ => none

def skipArrRest : Nat → List Nat → Option (List Nat)
  | 0, _ => none
  | fuel + 1, r =>
    match skipWs r with
    | 0x5D :: r2 => some r2
    | l' =>
      match skipValue fuel l' with
      | none => none
      | some r2 =>
        match skipWs r2 with
        | 0x2C :: r3 => skipArrRest fuel r3
        | 0x5D :: r3 => some r3
        | _ => none

end

def emptyRecording : Recording :=
  { status := "", statusCode := 0, proto := "", protoMajor := 0, protoMinor := 0,
    headers := [], body := [] }

/-- Decode one field value into the `Recording` field whose JSON tag is `k`,
skipping the value of an unknown key, as `encoding/json` dispatches on the
struct tags. -/
def parseFieldVal (k : String) (acc : Recording) (r2 : List Nat) :
    Option (Recording × List Nat) :=
  if k = "status" then
    (parseStr r2).map (fun p => ({ acc with status := p.1 }, p.2))
  else if k = "status_code" then
    (parseInt r2).map (fun p => ({ acc with statusCode := p.1 }, p.2))
  else if k = "proto" then
    (parseStr r2).map (fun p => ({ acc with proto := p.1 }, p.2))
  else if k = "proto_major" then
    (parseInt r2).map (fun p => ({ acc with protoMajor := p.1 }, p.2))
  else if k = "proto_minor" then
    (parseInt r2).map (fun p => ({ acc with protoMinor := p.1 }, p.2))
  else if k = "headers" then
    (parseHdrs r2).map (fun p => ({ acc with headers := p.1 }, p.2))
  else
    (skipValue (r2.length + 1) r2).map (fun rr => (acc, rr))

/-- The field loop of decoding into a `Recording`. -/
def parseRecFields : Nat → Recording → List Nat → Option (Recording × List Nat)
  | 0, _, _ => none
  | fuel + 1, acc, l =>
    match parseStr l with
    | none => none
    | some (k, r) =>
      match skipWs r with
      | 0x3A :: r2 =>
        match parseFieldVal k acc r2 with
        | none => none
        | some (acc2, r3) =>
          match skipWs r3 with
          | 0x2C :: r4 => parseRecFields fuel acc2 r4
          | 0x7D :: r4 => some (acc2, r4)
          | _ => none
      | _ => none

/-- Parse the leading JSON object of a recording file. Stops directly after
the closing brace; the unread remainder is returned. -/
def parseRecording (l : List Nat) : Option (Recording × List Nat) :=
  match skipWs l with
  | 0x7B :: r =>
    match skipWs r with
    | 0x7D :: r2 => some (emptyRecording, r2)
    | r2 => parseRecFields (r2.length + 1) emptyRecording r2
  | _ => none

inductive LoadErr where
  | notFound
  | parseFail
deriving DecidableEq, Repr

/-- `LoadRecording` strips at most one newline between the JSON block and the
body. -/
def stripOneNewline : List Nat → List Nat
  | 0x0A :: rest => rest
  | l => l

def loadFromBytes (bs : List Nat) : Except LoadErr Recording :=
  match parseRecording bs with
  | none => .error .parseFail
  | some (rec, rest) => .ok { rec with body := stripOneNewline rest }

/-! ### The filesystem and `Save` -/

/-- The file store: an association of paths to file contents. -/
abbrev FS := List (String × List Nat)

def FS.get (fs : FS) (p : String) : Option (List Nat) := List.lookup p fs

def FS.remove (fs : FS) (p : String) : FS := fs.filter (fun e => e.1 ≠ p)

def FS.set (fs : FS) (p : String) (c : List Nat) : FS := (p, c) :: FS.remove fs p

/-- `LoadRecording`: open the file (absence is the not-found error), decode
the JSON block, strip at most one newline, keep the rest as the body. -/
def loadRecording (fs : FS) (path : String) : Except LoadErr Recording :=
  match FS.get fs path with
  | none => .error .notFound
  | some bs => loadFromBytes bs

inductive SaveErr where
  | mkdirFail
  | tempFail
  | writeFail
  | renameFail
deriving DecidableEq, Repr

/-- Failure injection for the filesystem steps of `Save`, plus the random
suffix `ioutil.TempFile` appends to the target filename. -/
structure SaveOracle where
  mkdirOk : Bool
  tempOk : Bool
  tmpSuffix : String
  writeJsonOk : Bool
  writeBodyOk : Bool
  renameOk : Bool

/-- `Recording.Save`: make the directories, create a temp file next to the
target, write the JSON block then the body, and rename over the target on
full success; on any failure remove the temp file and return the error. -/
def save (r : Recording) (path : String) (o : SaveOracle) (fs : FS) :
    Except SaveErr Unit × FS :=
  if o.mkdirOk = false then (.error .mkdirFail, fs)
  else if o.tempOk = false then (.error .tempFail, fs)
  else
    let tmp := path ++ o.tmpSuffix
    let fs1 := FS.set fs tmp []
    if o.writeJsonOk = false then (.error .writeFail, FS.remove fs1 tmp)
    else if o.writeBodyOk = false then
      (.error .writeFail, FS.remove (FS.set fs1 tmp (encodeRecordingJson r ++ [0x0A])) tmp)
    else
      let fs2 := FS.set fs1 tmp (saveBytes r)
      if o.renameOk then (.ok (), FS.set (FS.remove fs2 tmp) path (saveBytes r))
      else (.error .renameFail, FS.remove fs2 tmp)

/-- The effect of one decoded field on the accumulated `Recording`:
the specification of `parseFieldVal` on already-parsed data. -/
def applyField (acc : Recording) : JField → Recording
  | .jstr n v =>
    if n = "status" then { acc with status := v }
    else if n = "proto" then { acc with proto := v }
    else acc
  | .jint n v =>
    if n = "status_code" then { acc with statusCode := v }
    else if n = "proto_major" then { acc with protoMajor := v }
    else if n = "proto_minor" then { acc with protoMinor := v }
    else acc
  | .jmap n h =>
    if n = "headers" then { acc with headers := h }
    else acc

/-- Well-formedness of an emitted field: its name is the JSON tag matching
its value shape. -/
def fieldOk : JField → Prop
  | .jstr n _ => n = "status" ∨ n = "proto"
  | .jint n _ => n = "status_code" ∨ n = "proto_major" ∨ n = "proto_minor"
  | .jmap n _ => n = "headers"

/-! ## The intercepting transport (`replay.go`) -/

inductive Mode where
  | recordIfMissing
  | playbackOnly
  | recordOnly
deriving DecidableEq, Repr

/-- An `*http.Response` as far as the library inspects it. `bodyReadErr`
models a body whose `Read` fails when `NewRecording` buffers it. -/
structure Response where
  status : String
  statusCode : Int
  proto : String
  protoMajor : Int
  protoMinor : Int
  headers : MultiMap
  bodyBytes : List Nat
  bodyReadErr : Bool
deriving DecidableEq, Repr

/-- `NewRecording` on a response whose body read succeeded. -/
def newRecording (res : Response) : Recording :=
  { status := res.status, statusCode := res.statusCode, proto := res.proto,
    protoMajor := res.protoMajor, protoMinor := res.protoMinor,
    headers := res.headers, body := res.bodyBytes }

/-- `Recording.Response`: materialize a response over a fresh readable body. -/
def Recording.response (r : Recording) : Response :=
  { status := r.status, statusCode := r.statusCode, proto := r.proto,
    protoMajor := r.protoMajor, protoMinor := r.protoMinor,
    headers := r.headers, bodyBytes := r.body, bodyReadErr := false }

/-- The `RoundTripper` configuration fields. -/
structure RTConfig where
  dir : String
  mode : Mode
  strictPath : Bool
  gen : PathGenerator

/-- Errors out of `RoundTrip`. The `wrapped…` constructors are returns of
`&Error{...}` (the library's `Error` type); `loadFail` and `transportFail`
are underlying errors returned directly, unwrapped. -/
inductive RTErr where
  | wrappedPathGen (e : CrcErr)
  | loadFail (e : LoadErr)
  | transportFail (e : String)
  | wrappedNewRecording
  | wrappedSave (e : SaveErr)
deriving DecidableEq, Repr

inductive RTResult where
  | ok (res : Response)
  | error (e : RTErr)
  | panik
deriving DecidableEq, Repr

/-- Instrumented outcome of one `RoundTrip` call: its return value, the file
store afterwards, how often the wrapped real transport was invoked, the paths
passed to `LoadRecording` in order, and the path passed to `Save` if `Save`
was invoked. -/
structure RTOutcome where
  result : RTResult
  fs : FS
  transportCalls : Nat
  loads : List String
  saved : Option String
deriving Repr

/-- The record-and-return tail of `RoundTrip`: call the real transport,
build a `Recording` from the live response, save it at the checksum path. -/
def recordPhase (transport : Request → Except String Response) (o : SaveOracle)
    (fs : FS) (req : Request) (path : String) (loads : List String) : RTOutcome :=
  match transport req with
  | .error te => ⟨.error (.transportFail te), fs, 1, loads, none⟩
  | .ok res =>
    if res.bodyReadErr then ⟨.error .wrappedNewRecording, fs, 1, loads, none⟩
    else
      match save (newRecording res) path o fs with
      | (.ok _, fs') => ⟨.ok res, fs', 1, loads, some path⟩
      | (.error e, fs') => ⟨.error (.wrappedSave e), fs', 1, loads, some path⟩

/-- `os.IsNotExist` applied to a load result. -/
def isNotFound : Except LoadErr Recording → Bool
  | .error .notFound => true
  | _ => false

/-- `RoundTripper.RoundTrip`. -/
def roundTrip (c : RTConfig) (transport : Request → Except String Response)
    (o : SaveOracle) (fs : FS) (req : Request) : RTOutcome :=
  match recordingPath c.gen req with
  | .err e => ⟨.error (.wrappedPathGen e), fs, 0, [], none⟩
  | .panik => ⟨.panik, fs, 0, [], none⟩
  | .ok rp req' =>
    let path := filepathJoin c.dir rp.path
    let generic := filepathJoin c.dir rp.genericPath
    if c.mode ≠ Mode.recordOnly then
      let first := loadRecording fs path
      let retry := !c.strictPath && decide (generic ≠ path) && isNotFound first
      let rec? := if retry then loadRecording fs generic else first
      let loads := if retry then [path, generic] else [path]
      match rec? with
      | .ok rec => ⟨.ok rec.response, fs, 0, loads, none⟩
      | .error e =>
        if c.mode = Mode.playbackOnly ∨ e ≠ LoadErr.notFound then
          ⟨.error (.loadFail e), fs, 0, loads, none⟩
        else
          recordPhase transport o fs req' path loads
    else
      recordPhase transport o fs req' path []

/-! ## Concrete objects used in counterexamples and witnesses -/

def baseURL : URL := { scheme := "http", host := "h", path := "/p", query := [] }

/-- A plain GET request with no query, headers or body. -/
def reqGet : Request :=
  { method := "GET", url := baseURL, header := [], body := none, getBody := none }

/-- Query `?ab=` (single key `ab`, one empty value). -/
def reqColQ1 : Request :=
  { reqGet with url := { baseURL with query := [("ab", [""])] } }

/-- Query `?a=b` (single key `a`, one value `b`). -/
def reqColQ2 : Request :=
  { reqGet with url := { baseURL with query := [("a", ["b"])] } }

/-- Header `k` with values `["a", "aa"]`. -/
def reqVal1 : Request := { reqGet with header := [("k", ["a", "aa"])] }

/-- Header `k` with the same values reordered: `["aa", "a"]`. -/
def reqVal2 : Request := { reqGet with header := [("k", ["aa", "a"])] }

/-- Header `k` with values `["a", "b"]`. -/
def reqOrd1 : Request := { reqGet with header := [("k", ["a", "b"])] }

/-- Header `k` with the same values reordered: `["b", "a"]`. -/
def reqOrd2 : Request := { reqGet with header := [("k", ["b", "a"])] }

/-- Header `k` with value list `["ab"]`: a value change from `reqOrd1`. -/
def reqChg : Request := { reqGet with header := [("k", ["ab"])] }

/-- Header `k` with single value `x`. -/
def reqHx : Request := { reqGet with header := [("k", ["x"])] }

/-- Header `k` with single value `y`. -/
def reqHy : Request := { reqGet with header := [("k", ["y"])] }

/-- A non-seekable body whose `Read` fails, on a request whose `GetBody` is
set and succeeds: the input on which the `io.Copy` error is clobbered. -/
def reqReadErr : Request :=
  { reqGet with
    header := [("k", ["v"])],
    body := some { bytes := [1, 2, 3], pos := 0, seekable := false,
                   readErr := true, seekErr := false },
    getBody := some (.ok { bytes := [1, 2, 3], pos := 0, seekable := false,
                           readErr := false, seekErr := false }) }

/-- A request whose only content is a non-empty, non-seekable body whose
read fails, while `GetBody` returns a fresh stream: the `RequestCRC` error
clobber drops the body from the hash and no other content exists, so the
checksum comes back empty although a body existed. -/
def reqBodyReadErr : Request :=
  { reqGet with
    body := some { bytes := [1, 2, 3], pos := 0, seekable := false,
                   readErr := true, seekErr := false },
    getBody := some (.ok { bytes := [1, 2, 3], pos := 0, seekable := false,
                           readErr := false, seekErr := false }) }

/-- A non-seekable body on a request with a nil `GetBody`: the input that is
buffered into a non-seekable `NopCloser` and then panics on `req.GetBody()`. -/
def reqNilGetBody : Request :=
  { reqGet with
    body := some { bytes := [1], pos := 0, seekable := false,
                   readErr := false, seekErr := false } }

/-- A request with a seekable body. -/
def reqSeek : Request :=
  { reqGet with
    body := some { bytes := [5, 6], pos := 0, seekable := true,
                   readErr := false, seekErr := false } }

def okOracle : SaveOracle :=
  { mkdirOk := true, tempOk := true, tmpSuffix := "123",
    writeJsonOk := true, writeBodyOk := true, renameOk := true }

def okResponse : Response :=
  { status := "200 OK", statusCode := 200, proto := "HTTP/1.1", protoMajor := 1,
    protoMinor := 1, headers := [], bodyBytes := [97], bodyReadErr := false }

def okTransport : Request → Except String Response := fun _ => .ok okResponse

def cfgPlayback : RTConfig :=
  { dir := "d", mode := .playbackOnly, strictPath := false, gen := newPathGenerator }

def cfgRecordOnly : RTConfig :=
  { dir := "d", mode := .recordOnly, strictPath := false, gen := newPathGenerator }

def cfgDefault : RTConfig :=
  { dir := "d", mode := .recordIfMissing, strictPath := false, gen := newPathGenerator }

/-- A small recording with a header and a binary body. -/
def recSmall : Recording :=
  { status := "200 OK", statusCode := 200, proto := "HTTP/1.1", protoMajor := 1,
    protoMinor := 1, headers := [("A", ["x"])], body := [72, 10, 73] }

/-- `m` with the value list of key `k` replaced by `v` (other keys kept). -/
def MultiMap.setVal (m : MultiMap) (k : String) (v : List String) : MultiMap :=
  m.map (fun kv => if kv.1 = k then (kv.1, v) else kv)

/-- Two requests that differ only in the insertion order of their header
keys. -/
def reqPermA : Request := { reqGet with header := [("a", ["1"]), ("b", ["2"])] }

def reqPermB : Request := { reqGet with header := [("b", ["2"]), ("a", ["1"])] }

/-! # Theorems -/

/-- Standard check value for CRC-32/IEEE: the digest of `"123456789"`. -/
theorem crc32_check : crc32 (strBytes "123456789") = 0xCBF43926 := by decide

/-! ## Association-list lemmas -/

theorem lookup_cons {β : Type} (a : String) (x : String × β)
    (l : List (String × β)) :
    List.lookup a (x :: l) = if a = x.1 then some x.2 else List.lookup a l := by
  rcases x with ⟨k, v⟩
  by_cases h : a = k
  · simp [List.lookup, h]
  · have hb : (a == k) = false := beq_eq_false_iff_ne.mpr h
    simp [List.lookup, hb, h]

theorem lookup_perm : ∀ {m1 m2 : MultiMap}, m1.Perm m2 →
    (MultiMap.keys m1).Nodup → ∀ k, List.lookup k m1 = List.lookup k m2 := by
  intro m1 m2 hp
  induction hp with
  | nil => intro _ _; rfl
  | cons x p ih =>
    intro hnd k
    simp only [MultiMap.keys, List.map_cons, List.nodup_cons] at hnd
    rw [lookup_cons, lookup_cons, ih hnd.2 k]
  | swap x y l =>
    intro hnd k
    simp only [MultiMap.keys, List.map_cons, List.nodup_cons, List.mem_cons] at hnd
    have hxy : y.1 ≠ x.1 := fun h => hnd.1 (Or.inl h)
    rw [lookup_cons, lookup_cons, lookup_cons, lookup_cons]
    have hxy' : ¬x.1 = y.1 := fun h => hxy h.symm
    by_cases hky : k = y.1
    · have hkx : ¬k = x.1 := fun h => hxy (hky.symm.trans h)
      simp [hky, hkx, hxy, hxy']
    · by_cases hkx : k = x.1 <;> simp [hky, hkx, hxy, hxy']
  | trans p1 _ ih1 ih2 =>
    intro hnd k
    have hnd2 : (MultiMap.keys _).Nodup :=
      ((p1.map Prod.fst).nodup_iff).mp hnd
    exact (ih1 hnd k).trans (ih2 hnd2 k)

theorem sortedKeys_perm {m1 m2 : MultiMap} (hp : m1.Perm m2) (excl : StringSet) :
    List.insertionSort (· ≤ ·)
      ((MultiMap.keys m1).filter (fun k => !StringSet.mem excl k)) =
    List.insertionSort (· ≤ ·)
      ((MultiMap.keys m2).filter (fun k => !StringSet.mem excl k)) := by
  exact List.eq_of_perm_of_sorted
    ((List.perm_insertionSort _ _).trans
      (((hp.map Prod.fst).filter _).trans (List.perm_insertionSort _ _).symm))
    (List.sorted_insertionSort _ _) (List.sorted_insertionSort _ _)

theorem foldl_hash_congr : ∀ (l : List String) (h : Nat) (m1 m2 : MultiMap),
    (∀ k ∈ l, MultiMap.get m1 k = MultiMap.get m2 k) →
    l.foldl (fun h k => (MultiMap.get m1 k).foldl
      (fun h v => crcWrite h (strBytes v)) (crcWrite h (strBytes k))) h =
    l.foldl (fun h k => (MultiMap.get m2 k).foldl
      (fun h v => crcWrite h (strBytes v)) (crcWrite h (strBytes k))) h := by
  intro l
  induction l with
  | nil => intro _ _ _ _; rfl
  | cons a l ih =>
    intro h m1 m2 hget
    simp only [List.foldl_cons]
    rw [hget a (by simp), ih _ m1 m2 (fun k hk => hget k (by simp [hk]))]

theorem updateHash_perm {m1 m2 : MultiMap} (hp : m1.Perm m2)
    (hnd : (MultiMap.keys m1).Nodup) (h : Nat) (excl : StringSet) :
    updateHash m1 h excl = updateHash m2 h excl := by
  simp only [updateHash]
  rw [sortedKeys_perm hp excl]
  rw [foldl_hash_congr _ h m1 m2 (fun k _ => by
    unfold MultiMap.get; rw [lookup_perm hp hnd k])]

theorem keys_setVal (m : MultiMap) (k : String) (v : List String) :
    MultiMap.keys (MultiMap.setVal m k v) = MultiMap.keys m := by
  unfold MultiMap.keys MultiMap.setVal
  rw [List.map_map]
  apply List.map_congr_left
  intro kv _
  by_cases h : kv.1 = k <;> simp [h]

theorem lookup_setVal_ne (m : MultiMap) (k : String) (v : List String)
    (k' : String) (hk : k' ≠ k) :
    List.lookup k' (MultiMap.setVal m k v) = List.lookup k' m := by
  induction m with
  | nil => rfl
  | cons a m ih =>
    simp only [MultiMap.setVal, List.map_cons] at ih ⊢
    rw [lookup_cons, lookup_cons]
    have h1 : (if a.1 = k then (a.1, v) else a).1 = a.1 := by split <;> rfl
    rw [h1]
    by_cases hka : k' = a.1
    · have hak : ¬a.1 = k := fun h => hk (hka.trans h)
      simp [hka, hak]
    · simp [hka, ih]

theorem updateHash_setVal_excluded (m : MultiMap) (k : String)
    (v : List String) (h : Nat) (excl : StringSet)
    (hmem : StringSet.mem excl k = true) :
    updateHash (MultiMap.setVal m k v) h excl = updateHash m h excl := by
  simp only [updateHash]
  rw [keys_setVal]
  rw [foldl_hash_congr _ h (MultiMap.setVal m k v) m (fun k' hk' => by
    have hne : k' ≠ k := by
      intro he
      have hmemsort := (List.perm_insertionSort
        (fun a b : String => a ≤ b) _).mem_iff.mp hk'
      have := List.of_mem_filter hmemsort
      rw [he, hmem] at this
      simp at this
    unfold MultiMap.get
    rw [lookup_setVal_ne m k v k' hne])]

/-! ## Checksum congruence of `RequestCRC` -/

theorem crcFinish_checksum_congr (h' : Nat) (hh : Bool) (n : Nat)
    (r1 r2 : Request) :
    (crcFinish h' hh n r1).checksum? = (crcFinish h' hh n r2).checksum? := by
  unfold crcFinish
  split_ifs <;> rfl

theorem crcBodyPhase_checksum_congr (p : PathGenerator) (r1 r2 : Request)
    (b : BodyStream) (h : Nat) (hh : Bool) (hgb : r1.getBody = r2.getBody) :
    (crcBodyPhase p r1 b h hh).checksum? = (crcBodyPhase p r2 b h hh).checksum? := by
  simp only [crcBodyPhase, hgb]
  cases hs : b.seekable with
  | true =>
    simp only [if_true]
    cases hre : b.readErr with
    | true => rfl
    | false =>
      cases hse : b.seekErr with
      | true => rfl
      | false => exact crcFinish_checksum_congr _ _ _ _ _
  | false =>
    simp only [Bool.false_eq_true, if_false]
    cases r2.getBody with
    | none => rfl
    | some g =>
      cases g with
      | error e => rfl
      | ok fresh => exact crcFinish_checksum_congr _ _ _ _ _

theorem requestCRC_checksum_congr (p : PathGenerator) (r1 r2 : Request)
    (hq : updateHash r2.url.query crcInit p.omitQuery =
          updateHash r1.url.query crcInit p.omitQuery)
    (hhd : ∀ x, updateHash r2.header x p.omitHeaders =
          updateHash r1.header x p.omitHeaders)
    (hb : r2.body = r1.body) (hg : r2.getBody = r1.getBody) :
    (requestCRC p r2).checksum? = (requestCRC p r1).checksum? := by
  simp only [requestCRC]
  rw [hq, hhd, hb, hg]
  cases r1.body with
  | none => exact crcFinish_checksum_congr _ _ _ _ _
  | some b =>
    dsimp only
    split_ifs
    · rfl
    · exact crcBodyPhase_checksum_congr p _ _ _ _ _ (by simp [hg])
    · exact crcBodyPhase_checksum_congr p _ _ _ _ _ hg

/-! ## Claims C4, C5, C10: checksum algebra -/

/-- Claim C4 counterexample: two requests that differ only in the order of
the value list of the single header key `k` (`["a", "aa"]` against
`["aa", "a"]`) produce the same checksum, because the values are written
into the CRC with no separator; so reordering values does not always change
the checksum. -/
theorem requestCRC_value_reorder_counterexample :
    reqVal1.method = reqVal2.method ∧ reqVal1.url = reqVal2.url ∧
    reqVal1.body = reqVal2.body ∧ reqVal1.getBody = reqVal2.getBody ∧
    reqVal1.header = [("k", ["a", "aa"])] ∧
    reqVal2.header = [("k", ["aa", "a"])] ∧
    (requestCRC newPathGenerator reqVal1).checksum? =
      (requestCRC newPathGenerator reqVal2).checksum? := by decide

/-- Claim C4 (amended): for every pair of requests that differ only in the
insertion order of distinct header or query keys, `RequestCRC` returns the
same checksum (keys are sorted before hashing); and reordering the list of
values associated with a single key can change the checksum (it does
whenever the hashed byte stream differs, witnessed by `["a","b"]` against
`["b","a"]`), though not always. -/
theorem requestCRC_key_order_invariance :
    (∀ (p : PathGenerator) (r1 r2 : Request),
      r1.method = r2.method → r1.url.scheme = r2.url.scheme →
      r1.url.host = r2.url.host → r1.url.path = r2.url.path →
      r1.body = r2.body → r1.getBody = r2.getBody →
      r1.url.query.Perm r2.url.query → r1.header.Perm r2.header →
      (MultiMap.keys r1.url.query).Nodup → (MultiMap.keys r1.header).Nodup →
      (requestCRC p r1).checksum? = (requestCRC p r2).checksum?) ∧
    (reqOrd1.method = reqOrd2.method ∧ reqOrd1.url = reqOrd2.url ∧
     reqOrd1.body = reqOrd2.body ∧ reqOrd1.getBody = reqOrd2.getBody ∧
     reqOrd1.header = [("k", ["a", "b"])] ∧
     reqOrd2.header = [("k", ["b", "a"])] ∧
     (requestCRC newPathGenerator reqOrd1).checksum? ≠
       (requestCRC newPathGenerator reqOrd2).checksum?) := by
  constructor
  · intro p r1 r2 _ _ _ _ hb hg hqp hhp hndq hndh
    exact (requestCRC_checksum_congr p r1 r2
      ((updateHash_perm hqp hndq crcInit p.omitQuery).symm)
      (fun x => (updateHash_perm hhp hndh x p.omitHeaders).symm)
      hb.symm hg.symm).symm
  · decide

theorem requestCRC_key_order_invariance_witness :
    (requestCRC newPathGenerator reqPermA).checksum? =
      (requestCRC newPathGenerator reqPermB).checksum? :=
  requestCRC_key_order_invariance.1 newPathGenerator reqPermA reqPermB
    rfl rfl rfl rfl rfl rfl (by decide) (by decide) (by decide) (by decide)

/-- Claim C5 counterexample: `reqOrd1` and `reqChg` differ only in the value
of the non-excluded header `k` (`["a","b"]` changed to `["ab"]`), yet
`RequestCRC` returns the same checksum for both: changing a non-excluded
value does not always change the checksum. -/
theorem requestCRC_exclusion_counterexample :
    reqChg = { reqOrd1 with header := MultiMap.setVal reqOrd1.header "k" ["ab"] } ∧
    StringSet.mem newPathGenerator.omitHeaders "k" = false ∧
    reqOrd1.header ≠ reqChg.header ∧
    (requestCRC newPathGenerator reqOrd1).checksum? =
      (requestCRC newPathGenerator reqChg).checksum? := by decide

/-- Claim C5 (amended): changing the value of a header in `OmitHeaders` or of
a query parameter in `OmitQuery` never changes the checksum; changing the
value of a non-excluded header or query parameter can change the checksum
(witnessed by header value `x` against `y`), though not always. -/
theorem requestCRC_exclusion_noninterference :
    (∀ (p : PathGenerator) (r : Request) (k : String) (v : List String),
      StringSet.mem p.omitHeaders k = true →
      (requestCRC p { r with header := MultiMap.setVal r.header k v }).checksum? =
        (requestCRC p r).checksum?) ∧
    (∀ (p : PathGenerator) (r : Request) (k : String) (v : List String),
      StringSet.mem p.omitQuery k = true →
      (requestCRC p
        { r with url := { r.url with query := MultiMap.setVal r.url.query k v } }).checksum? =
        (requestCRC p r).checksum?) ∧
    (reqHx.header = [("k", ["x"])] ∧ reqHy.header = [("k", ["y"])] ∧
     reqHy = { reqHx with header := MultiMap.setVal reqHx.header "k" ["y"] } ∧
     StringSet.mem newPathGenerator.omitHeaders "k" = false ∧
     (requestCRC newPathGenerator reqHx).checksum? ≠
       (requestCRC newPathGenerator reqHy).checksum?) := by
  refine ⟨?_, ?_, by decide⟩
  · intro p r k v hmem
    exact requestCRC_checksum_congr p r { r with header := MultiMap.setVal r.header k v }
      rfl (fun x => updateHash_setVal_excluded r.header k v x p.omitHeaders hmem)
      rfl rfl
  · intro p r k v hmem
    exact requestCRC_checksum_congr p r
      { r with url := { r.url with query := MultiMap.setVal r.url.query k v } }
      (updateHash_setVal_excluded r.url.query k v crcInit p.omitQuery hmem)
      (fun _ => rfl) rfl rfl

theorem requestCRC_exclusion_noninterference_witness :
    (requestCRC newPathGenerator
      { reqGet with header := MultiMap.setVal reqGet.header "Date" ["x"] }).checksum? =
      (requestCRC newPathGenerator reqGet).checksum? :=
  requestCRC_exclusion_noninterference.1 newPathGenerator reqGet "Date" ["x"] (by decide)

/-- Claim C10: two requests that are identical except for genuinely different
non-excluded query parameters — key `ab` with one empty value against key `a`
with the single value `b` — receive equal checksums (the concatenated hash
stream is `ab` in both cases), equal recording paths, and hence share one
recording file. -/
theorem requestCRC_collision_shared_path :
    reqColQ1.url.query ≠ reqColQ2.url.query ∧
    (requestCRC newPathGenerator reqColQ1).checksum? = some "2659403885" ∧
    (requestCRC newPathGenerator reqColQ2).checksum? = some "2659403885" ∧
    (recordingPath newPathGenerator reqColQ1).recPath? =
      some { dir := "http/h/GET/p", checksum := "2659403885" } ∧
    (recordingPath newPathGenerator reqColQ2).recPath? =
      some { dir := "http/h/GET/p", checksum := "2659403885" } ∧
    RecordingPath.path { dir := "http/h/GET/p", checksum := "2659403885" } =
      "http/h/GET/p/request.2659403885.json" := by decide

/-! ## Claims C6, C7: the body during checksum computation -/

/-- Claim C7 (code bug): a failure reading the body does not always surface
as an error. On `reqReadErr` (non-seekable body whose `Read` fails, with a
working `GetBody`), the `io.Copy` error is overwritten by the `GetBody`
result and `RequestCRC` returns a checksum computed without the body bytes.
On `reqNilGetBody` (non-seekable body, nil `GetBody`), the body is buffered
into a `NopCloser` that is not a seeker, and the restore path calls the nil
`GetBody`: a runtime panic rather than a returned error. -/
theorem requestCRC_body_failure_not_surfaced :
    reqReadErr.body = some { bytes := [1, 2, 3], pos := 0, seekable := false,
                             readErr := true, seekErr := false } ∧
    requestCRC newPathGenerator reqReadErr =
      .ok "2125886618"
        { reqReadErr with
          body := some { bytes := [1, 2, 3], pos := 0, seekable := false,
                         readErr := false, seekErr := false } } ∧
    reqNilGetBody.body = some { bytes := [1], pos := 0, seekable := false,
                                readErr := false, seekErr := false } ∧
    reqNilGetBody.getBody = none ∧
    requestCRC newPathGenerator reqNilGetBody = .panik := by decide

/-- Claim C6: whenever `RequestCRC` returns successfully on a request with a
non-nil body, the request's body afterwards is either the original seekable
stream repositioned to byte 0 by `Seek`, or a fresh stream obtained from
`GetBody`. -/
theorem requestCRC_body_restored (p : PathGenerator) (req : Request)
    (b : BodyStream) (crc : String) (req' : Request)
    (hb : req.body = some b)
    (hok : requestCRC p req = .ok crc req') :
    ∃ b', req'.body = some b' ∧
      ((b.seekable = true ∧ b' = { b with pos := 0 }) ∨
        req.getBody = some (.ok b')) := by
  unfold requestCRC at hok
  split at hok
  · next heq => rw [heq] at hb; cases hb
  · next b0 heq =>
    rw [heq] at hb
    injection hb with hb
    subst hb
    split at hok
    · next hcond =>
      split at hok
      · cases hok
      · unfold crcBodyPhase at hok
        simp only [BodyStream.buffered] at hok
        rw [hcond.2] at hok
        cases hok
    · next hcond =>
      unfold crcBodyPhase at hok
      cases hs : b0.seekable with
      | true =>
        cases hre : b0.readErr with
        | true => simp [hs, hre] at hok
        | false =>
          cases hse : b0.seekErr with
          | true => simp [hs, hre, hse] at hok
          | false =>
            simp only [hs, hre, hse, Bool.not_false, Bool.not_true,
              Bool.false_eq_true, if_true, if_false] at hok
            unfold crcFinish at hok
            split at hok <;>
              (injection hok with h1 h2;
               exact ⟨{ bytes := b0.bytes, pos := 0, seekable := true,
                        readErr := false, seekErr := false },
                      by rw [← h2], Or.inl ⟨rfl, rfl⟩⟩)
      | false =>
        simp only [hs, Bool.false_eq_true, if_false] at hok
        split at hok
        · next heq => exact absurd ⟨hs, heq⟩ hcond
        · next e heq => cases hok
        · next fresh heq =>
          unfold crcFinish at hok
          split at hok
          all_goals try split at hok
          all_goals try split at hok
          all_goals
            (injection hok with h1 h2;
             exact ⟨fresh, by rw [← h2], Or.inr heq⟩)

theorem requestCRC_body_restored_witness :
    ∃ b', ({ reqSeek with
              body := some { bytes := [5, 6], pos := 0, seekable := true,
                             readErr := false, seekErr := false } } : Request).body = some b' ∧
      ((true = true ∧
        b' = { bytes := [5, 6], pos := 0, seekable := true,
               readErr := false, seekErr := false }) ∨
        reqSeek.getBody = some (.ok b')) := by
  have h := requestCRC_body_restored newPathGenerator reqSeek
    { bytes := [5, 6], pos := 0, seekable := true, readErr := false, seekErr := false }
    "3586999183"
    { reqSeek with
      body := some { bytes := [5, 6], pos := 0, seekable := true,
                     readErr := false, seekErr := false } }
    (by decide) (by decide)
  exact h

/-! ## Claim C3: path derivation -/

theorem natDecBytes_ne_nil (n : Nat) : natDecBytes n ≠ [] := by
  unfold natDecBytes
  split
  · simp
  · next h =>
    cases hn : n with
    | zero => exact absurd hn h
    | succ m =>
      simp only [hn, digitsRevFuel]
      simp [digitsRevFuel]

theorem natDecStr_ne_empty (n : Nat) : natDecStr n ≠ "" := by
  unfold natDecStr
  intro h
  have h2 := congrArg String.data h
  simp only [String.data] at h2
  exact natDecBytes_ne_nil n (List.map_eq_nil_iff.mp h2)

theorem updateHash_snd (m : MultiMap) (h : Nat) (excl : StringSet) :
    (updateHash m h excl).2 = true ↔
      (MultiMap.keys m).filter (fun k => !StringSet.mem excl k) ≠ [] := by
  simp only [updateHash]
  rw [decide_eq_true_eq, (List.perm_insertionSort _ _).length_eq]
  exact List.length_pos

theorem crcFinish_ok_empty_iff (h' : Nat) (hh : Bool) (n : Nat) (r : Request)
    (c : String) (r' : Request) (hok : crcFinish h' hh n r = .ok c r') :
    c ≠ "" ↔ (hh = true ∨ 0 < n) := by
  unfold crcFinish at hok
  split at hok <;> injection hok with h1 h2
  · next hcond =>
    rw [← h1]
    simp only [Bool.or_eq_true, decide_eq_true_eq] at hcond
    simp [natDecStr_ne_empty, hcond]
  · next hcond =>
    rw [← h1]
    simp only [Bool.or_eq_true, decide_eq_true_eq, not_or] at hcond
    simp [hcond.1, hcond.2]

theorem requestCRC_checksum_empty_iff (p : PathGenerator) (req : Request)
    (c : String) (req' : Request)
    (hm : p.mungeRequestBody = none)
    (hre : ∀ b, req.body = some b → b.readErr = false)
    (hok : requestCRC p req = .ok c req') :
    c ≠ "" ↔
      ((MultiMap.keys req.url.query).filter
        (fun k => !StringSet.mem p.omitQuery k) ≠ [] ∨
       (MultiMap.keys req.header).filter
        (fun k => !StringSet.mem p.omitHeaders k) ≠ [] ∨
       ∃ b, req.body = some b ∧ b.remaining ≠ []) := by
  unfold requestCRC at hok
  split at hok
  · next heq =>
    rw [crcFinish_ok_empty_iff _ _ _ _ _ _ hok]
    rw [Bool.or_eq_true, updateHash_snd, updateHash_snd]
    constructor
    · rintro ((h | h) | h)
      · exact Or.inr (Or.inl h)
      · exact Or.inl h
      · omega
    · rintro (h | h | ⟨b, hb, _⟩)
      · exact Or.inl (Or.inr h)
      · exact Or.inl (Or.inl h)
      · rw [heq] at hb; cases hb
  · next b0 heq =>
    have hre0 : b0.readErr = false := hre b0 heq
    split at hok
    · next hcond =>
      split at hok
      · cases hok
      · unfold crcBodyPhase at hok
        simp only [BodyStream.buffered] at hok
        rw [hcond.2] at hok
        cases hok
    · next hcond =>
      unfold crcBodyPhase at hok
      simp only [hm, hre0, Bool.not_false, Bool.not_true, Bool.false_eq_true,
        if_true, if_false] at hok
      have hbody : ∀ hh2 : Bool,
          (hh2 = true ∨ 0 < b0.remaining.length) ↔
          (hh2 = true ∨ ∃ b, req.body = some b ∧ b.remaining ≠ []) := by
        intro hh2
        constructor
        · rintro (h | h)
          · exact Or.inl h
          · exact Or.inr ⟨b0, heq, by
              intro hnil
              rw [hnil] at h
              simp at h⟩
        · rintro (h | ⟨b, hb, hne⟩)
          · exact Or.inl h
          · rw [heq] at hb
            injection hb with hb
            subst hb
            exact Or.inr (List.length_pos.mpr hne)
      cases hs : b0.seekable with
      | true =>
        rw [hs] at hok
        simp only [if_true] at hok
        split at hok
        · cases hok
        · rw [crcFinish_ok_empty_iff _ _ _ _ _ _ hok]
          rw [hbody, Bool.or_eq_true, updateHash_snd, updateHash_snd]
          tauto
      | false =>
        rw [hs] at hok
        simp only [Bool.false_eq_true, if_false] at hok
        split at hok
        · cases hok
        · cases hok
        · rw [crcFinish_ok_empty_iff _ _ _ _ _ _ hok]
          rw [hbody, Bool.or_eq_true, updateHash_snd, updateHash_snd]
          tauto

/-- Claim C3 counterexample: a request whose only content is a non-empty,
non-seekable body whose read fails while `GetBody` succeeds. `RecordingPath`
succeeds with an empty checksum (the `io.Copy` error is clobbered by
`req.GetBody()` and zero body bytes were hashed), so the filename is the
generic `request.json` although a non-empty body existed: the original
claim's "checksum non-empty exactly when some non-excluded query parameter,
non-excluded header, or non-empty body existed" fails on this request. -/
theorem recordingPath_readfail_counterexample :
    (∃ b, reqBodyReadErr.body = some b ∧ b.remaining ≠ []) ∧
    (recordingPath newPathGenerator reqBodyReadErr).recPath? =
      some { dir := "http/h/GET/p", checksum := "" } ∧
    (∀ rp, (recordingPath newPathGenerator reqBodyReadErr).recPath? = some rp →
      ¬(rp.checksum ≠ "" ↔
        ((MultiMap.keys reqBodyReadErr.url.query).filter
            (fun k => !StringSet.mem newPathGenerator.omitQuery k) ≠ [] ∨
          (MultiMap.keys reqBodyReadErr.header).filter
            (fun k => !StringSet.mem newPathGenerator.omitHeaders k) ≠ [] ∨
          ∃ b, reqBodyReadErr.body = some b ∧ b.remaining ≠ []))) := by
  refine ⟨⟨_, rfl, by decide⟩, by decide, ?_⟩
  intro rp hrp hiff
  have hc : (recordingPath newPathGenerator reqBodyReadErr).recPath? =
      some { dir := "http/h/GET/p", checksum := "" } := by decide
  rw [hc] at hrp
  injection hrp with hrp
  subst hrp
  exact (hiff.mpr (Or.inr (Or.inr ⟨_, rfl, by decide⟩))) rfl

/-- Claim C3 (amended): the directory of `RecordingPath` is, in order, the scheme (if
non-empty), the query-escaped host (if non-empty), the method (if
non-empty), and each non-empty `/`-delimited path segment query-escaped,
joined by the path separator; the filename is
`request.<decimal CRC32>.json` when the checksum is non-empty and
`request.json` (the generic path) otherwise; and the checksum is non-empty
exactly when some non-excluded query parameter, some non-excluded header,
or a non-empty body existed — the latter under the default nil body-munge
hook and for bodies whose reads succeed; a read-failing body is dropped
from the hash by the error clobber (see the counterexample and C7). -/
theorem recordingPath_spec (p : PathGenerator) (req : Request)
    (hm : p.mungeRequestBody = none)
    (hre : ∀ b, req.body = some b → b.readErr = false)
    (rp : RecordingPath) (req' : Request)
    (hok : recordingPath p req = .ok rp req') :
    rp.dir = strJoin "/"
      ((if req.url.scheme ≠ "" then [req.url.scheme] else []) ++
       (if req.url.host ≠ "" then [queryEscape req.url.host] else []) ++
       (if req.method ≠ "" then [req.method] else []) ++
       ((splitSlash req.url.path).filter (· ≠ "")).map queryEscape) ∧
    (rp.checksum ≠ "" →
      rp.path = filepathJoin rp.dir ("request." ++ rp.checksum ++ ".json")) ∧
    (rp.checksum = "" → rp.path = rp.genericPath) ∧
    (rp.checksum ≠ "" ↔
      ((MultiMap.keys req.url.query).filter
        (fun k => !StringSet.mem p.omitQuery k) ≠ [] ∨
       (MultiMap.keys req.header).filter
        (fun k => !StringSet.mem p.omitHeaders k) ≠ [] ∨
       ∃ b, req.body = some b ∧ b.remaining ≠ [])) := by
  unfold recordingPath at hok
  split at hok
  · cases hok
  · cases hok
  · next crc req'' hcrc =>
    injection hok with h1 h2
    subst h1
    refine ⟨rfl, ?_, ?_, ?_⟩
    · intro hne
      simp [RecordingPath.path, hne]
    · intro he
      have he' : crc = "" := he
      simp [RecordingPath.path, RecordingPath.genericPath, he']
    · exact requestCRC_checksum_empty_iff p req crc req'' hm hre hcrc

theorem recordingPath_spec_witness :
    ({ dir := "http/h/GET/p", checksum := "" } : RecordingPath).dir =
      strJoin "/"
        ((if reqGet.url.scheme ≠ "" then [reqGet.url.scheme] else []) ++
         (if reqGet.url.host ≠ "" then [queryEscape reqGet.url.host] else []) ++
         (if reqGet.method ≠ "" then [reqGet.method] else []) ++
         ((splitSlash reqGet.url.path).filter (· ≠ "")).map queryEscape) :=
  (recordingPath_spec newPathGenerator reqGet rfl (by intro b hb; cases hb)
    { dir := "http/h/GET/p", checksum := "" } reqGet (by decide)).1

/-! ## Claims C1, C8: the transport state machine -/

theorem recordPhase_loads (transport : Request → Except String Response)
    (o : SaveOracle) (fs : FS) (req : Request) (path : String)
    (loads : List String) :
    (recordPhase transport o fs req path loads).loads = loads := by
  unfold recordPhase
  split
  · rfl
  · split
    · rfl
    · split <;> rfl

theorem recordPhase_calls (transport : Request → Except String Response)
    (o : SaveOracle) (fs : FS) (req : Request) (path : String)
    (loads : List String) :
    (recordPhase transport o fs req path loads).transportCalls = 1 := by
  unfold recordPhase
  split
  · rfl
  · split
    · rfl
    · split <;> rfl

theorem recordPhase_saved (transport : Request → Except String Response)
    (o : SaveOracle) (fs : FS) (req : Request) (path : String)
    (loads : List String) (res : Response)
    (htr : transport req = .ok res) (hbr : res.bodyReadErr = false) :
    (recordPhase transport o fs req path loads).saved = some path := by
  unfold recordPhase
  split
  · next te heq => rw [htr] at heq; cases heq
  · next res' heq =>
    rw [htr] at heq
    injection heq with heq
    subst heq
    rw [if_neg (by rw [hbr]; intro h; cases h)]
    split <;> rfl

/-- Claim C1: when `Mode = ModePlaybackOnly` the wrapped real transport is
never invoked, and a missing recording (both candidate paths absent) yields
the not-found error; when `Mode = ModeRecordOnly`, `LoadRecording` is never
called, and on a successful transport round trip `Save` is invoked at the
checksum-qualified path. -/
theorem roundTrip_mode_invariant (c : RTConfig)
    (transport : Request → Except String Response) (o : SaveOracle)
    (fs : FS) (req : Request) :
    (c.mode = Mode.playbackOnly →
      (roundTrip c transport o fs req).transportCalls = 0) ∧
    (c.mode = Mode.playbackOnly →
      ∀ rp req', recordingPath c.gen req = .ok rp req' →
        loadRecording fs (filepathJoin c.dir rp.path) = .error .notFound →
        loadRecording fs (filepathJoin c.dir rp.genericPath) = .error .notFound →
        (roundTrip c transport o fs req).result = .error (.loadFail .notFound)) ∧
    (c.mode = Mode.recordOnly →
      (roundTrip c transport o fs req).loads = [] ∧
      (∀ rp req' res, recordingPath c.gen req = .ok rp req' →
        transport req' = .ok res → res.bodyReadErr = false →
        (roundTrip c transport o fs req).saved =
          some (filepathJoin c.dir rp.path))) := by
  refine ⟨?_, ?_, ?_⟩
  · intro hmode
    unfold roundTrip
    split
    · rfl
    · rfl
    · next rp req' hpg =>
      rw [if_pos (by rw [hmode]; intro h; cases h)]
      dsimp only
      split
      · rfl
      · split
        · rfl
        · exfalso
          next hif =>
          rw [hmode] at hif
          exact hif (Or.inl rfl)
  · intro hmode rp req' hpg hload hgload
    unfold roundTrip
    rw [hpg]
    dsimp only
    rw [if_pos (by rw [hmode]; intro h; cases h)]
    rw [hload, hgload, ite_self]
    dsimp only
    rw [if_pos (Or.inl hmode)]
  · intro hmode
    unfold roundTrip
    constructor
    · split
      · rfl
      · rfl
      · rw [if_neg (by rw [hmode]; intro h; exact h rfl)]
        exact recordPhase_loads _ _ _ _ _ _
    · intro rp req' res hpg htr hbr
      rw [hpg]
      dsimp only
      rw [if_neg (by rw [hmode]; intro h; exact h rfl)]
      exact recordPhase_saved _ _ _ _ _ _ _ htr hbr

theorem roundTrip_mode_invariant_witness :
    (roundTrip cfgPlayback okTransport okOracle [] reqGet).transportCalls = 0 :=
  (roundTrip_mode_invariant cfgPlayback okTransport okOracle [] reqGet).1 rfl

/-- Claim C8: in any mode other than record-only, `RoundTrip` first loads
the checksum-qualified path and retries exactly once at the generic path
iff the first load was not-found, `StrictPath` is off, and the two paths
differ; a successful load returns the materialized response without
invoking the transport; a load error other than not-found is returned
directly (not wrapped in an `Error`); and in playback-only mode a final
not-found is returned with no network fallback. -/
theorem roundTrip_lookup_fallback (c : RTConfig)
    (transport : Request → Except String Response) (o : SaveOracle)
    (fs : FS) (req : Request)
    (hmode : c.mode ≠ Mode.recordOnly)
    (rp : RecordingPath) (req' : Request)
    (hpg : recordingPath c.gen req = .ok rp req')
    (path generic : String)
    (hp : path = filepathJoin c.dir rp.path)
    (hg : generic = filepathJoin c.dir rp.genericPath)
    (retry : Bool)
    (hr : retry = (!c.strictPath && decide (generic ≠ path) &&
      isNotFound (loadRecording fs path)))
    (eff : Except LoadErr Recording)
    (heff : eff = if retry then loadRecording fs generic
                  else loadRecording fs path) :
    ((roundTrip c transport o fs req).loads =
      if retry then [path, generic] else [path]) ∧
    (∀ rec, eff = .ok rec →
      (roundTrip c transport o fs req).result = .ok rec.response ∧
      (roundTrip c transport o fs req).transportCalls = 0) ∧
    (∀ e, eff = .error e → e ≠ LoadErr.notFound →
      (roundTrip c transport o fs req).result = .error (.loadFail e)) ∧
    (c.mode = Mode.playbackOnly → eff = .error .notFound →
      (roundTrip c transport o fs req).result = .error (.loadFail .notFound) ∧
      (roundTrip c transport o fs req).transportCalls = 0) := by
  subst hp hg
  unfold roundTrip
  rw [hpg]
  dsimp only
  rw [if_pos hmode, ← hr, ← heff]
  cases heffc : eff with
  | ok rec =>
    dsimp only
    refine ⟨rfl, ?_, ?_, ?_⟩
    · intro rec' hrec
      injection hrec with hrec
      subst hrec
      exact ⟨rfl, rfl⟩
    · intro e he
      cases he
    · intro _ he
      cases he
  | error e =>
    dsimp only
    refine ⟨?_, ?_, ?_, ?_⟩
    · split
      · rfl
      · exact recordPhase_loads _ _ _ _ _ _
    · intro rec hrec
      cases hrec
    · intro e' he hne
      injection he with he
      subst he
      rw [if_pos (Or.inr hne)]
    · intro hpb he
      injection he with he
      subst he
      rw [if_pos (Or.inl hpb)]
      exact ⟨rfl, rfl⟩

theorem roundTrip_lookup_fallback_witness :
    (roundTrip cfgDefault okTransport okOracle [] reqGet).loads =
      (if false then ["d/http/h/GET/p/request.json", "d/http/h/GET/p/request.json"]
       else ["d/http/h/GET/p/request.json"]) :=
  (roundTrip_lookup_fallback cfgDefault okTransport okOracle [] reqGet
    (by decide) { dir := "http/h/GET/p", checksum := "" } reqGet (by decide)
    "d/http/h/GET/p/request.json" "d/http/h/GET/p/request.json" rfl rfl
    false rfl (.error .notFound) rfl).1

/-! ## Claim C9: atomicity of `Save` -/

theorem FS.get_set_self (fs : FS) (p : String) (c : List Nat) :
    FS.get (FS.set fs p c) p = some c := by
  unfold FS.get FS.set
  rw [lookup_cons]
  simp

theorem FS.get_remove_self (fs : FS) (p : String) :
    FS.get (FS.remove fs p) p = none := by
  induction fs with
  | nil => rfl
  | cons a fs ih =>
    unfold FS.get FS.remove at ih ⊢
    rw [List.filter_cons]
    by_cases hap : a.1 = p
    · rw [if_neg (by simp [hap])]
      exact ih
    · rw [if_pos (by simp [hap]), lookup_cons, if_neg (fun h => hap h.symm)]
      exact ih

theorem FS.get_remove_other (fs : FS) (p q : String) (h : q ≠ p) :
    FS.get (FS.remove fs p) q = FS.get fs q := by
  induction fs with
  | nil => rfl
  | cons a fs ih =>
    unfold FS.get FS.remove at ih ⊢
    rw [List.filter_cons]
    by_cases hap : a.1 = p
    · have hqa : ¬q = a.1 := fun hh => h (hh.trans hap)
      rw [if_neg (by simp [hap]), ih, lookup_cons, if_neg hqa]
    · rw [if_pos (by simp [hap]), lookup_cons, lookup_cons]
      by_cases hqa : q = a.1
      · simp [hqa]
      · rw [if_neg hqa, if_neg hqa, ih]

theorem FS.get_set_other (fs : FS) (p q : String) (c : List Nat) (h : q ≠ p) :
    FS.get (FS.set fs p c) q = FS.get fs q := by
  unfold FS.set
  show FS.get ((p, c) :: FS.remove fs p) q = FS.get fs q
  unfold FS.get
  rw [lookup_cons, if_neg h]
  exact FS.get_remove_other fs p q h

theorem string_append_ne_of_ne_empty (a s : String) (h : s ≠ "") :
    a ++ s ≠ a := by
  intro he
  have hd := congrArg String.data he
  have h2 : a.data ++ s.data = a.data ++ [] := by
    simpa [String.data] using hd
  have h3 : s.data = [] := by
    exact List.append_cancel_left h2
  apply h
  cases s with
  | mk d =>
    simp only [String.data] at h3
    rw [h3]

/-- Claim C9: `Save` writes to a temporary file named by appending a
non-empty suffix to the target path; only on full success is it renamed over
the target, which then holds exactly the JSON block plus newline plus body;
on any failure the temporary file is gone, the error is returned, and the
target retains its previous content. -/
theorem save_atomic (r : Recording) (path : String) (o : SaveOracle) (fs : FS)
    (hsuf : o.tmpSuffix ≠ "")
    (htmp : FS.get fs (path ++ o.tmpSuffix) = none) :
    ((save r path o fs).1 = .ok () →
      FS.get (save r path o fs).2 path = some (saveBytes r) ∧
      FS.get (save r path o fs).2 (path ++ o.tmpSuffix) = none) ∧
    (∀ e, (save r path o fs).1 = .error e →
      FS.get (save r path o fs).2 path = FS.get fs path ∧
      FS.get (save r path o fs).2 (path ++ o.tmpSuffix) = none) := by
  have hne : path ++ o.tmpSuffix ≠ path :=
    string_append_ne_of_ne_empty path o.tmpSuffix hsuf
  have hne' : path ≠ path ++ o.tmpSuffix := fun h => hne h.symm
  unfold save
  cases hmk : o.mkdirOk with
  | false =>
    rw [if_pos rfl]
    refine ⟨fun h => ?_, fun e _ => ⟨rfl, htmp⟩⟩
    cases h
  | true =>
    rw [if_neg (by intro h; cases h)]
    cases htf : o.tempOk with
    | false =>
      rw [if_pos rfl]
      refine ⟨fun h => ?_, fun e _ => ⟨rfl, htmp⟩⟩
      cases h
    | true =>
      rw [if_neg (by intro h; cases h)]
      cases hwj : o.writeJsonOk with
      | false =>
        rw [if_pos rfl]
        refine ⟨fun h => ?_, fun e _ => ⟨?_, ?_⟩⟩
        · cases h
        · rw [FS.get_remove_other _ _ _ hne', FS.get_set_other _ _ _ _ hne']
        · exact FS.get_remove_self _ _
      | true =>
        rw [if_neg (by intro h; cases h)]
        cases hwb : o.writeBodyOk with
        | false =>
          rw [if_pos rfl]
          refine ⟨fun h => ?_, fun e _ => ⟨?_, ?_⟩⟩
          · cases h
          · rw [FS.get_remove_other _ _ _ hne',
              FS.get_set_other _ _ _ _ hne', FS.get_set_other _ _ _ _ hne']
          · exact FS.get_remove_self _ _
        | true =>
          rw [if_neg (by intro h; cases h)]
          cases hrn : o.renameOk with
          | true =>
            rw [if_pos rfl]
            refine ⟨fun _ => ⟨?_, ?_⟩, fun e h => ?_⟩
            · exact FS.get_set_self _ _ _
            · rw [FS.get_set_other _ _ _ _ hne, FS.get_remove_self]
            · cases h
          | false =>
            rw [if_neg (by intro h; cases h)]
            refine ⟨fun h => ?_, fun e _ => ⟨?_, ?_⟩⟩
            · cases h
            · rw [FS.get_remove_other _ _ _ hne',
                FS.get_set_other _ _ _ _ hne', FS.get_set_other _ _ _ _ hne']
            · exact FS.get_remove_self _ _

theorem save_atomic_witness :
    okOracle.tmpSuffix ≠ "" ∧
    FS.get ([] : FS) ("p" ++ okOracle.tmpSuffix) = none ∧
    FS.get (save recSmall "p" okOracle []).2 "p" = some (saveBytes recSmall) ∧
    FS.get (save recSmall "p" okOracle []).2 ("p" ++ okOracle.tmpSuffix) = none := by
  refine ⟨by decide, rfl, ?_⟩
  exact (save_atomic recSmall "p" okOracle [] (by decide) rfl).1 (by rfl)

/-! ## Claim C2: the JSON codec round trip

The chain is: one character's escape re-parses to that character
(`strChunk_escChar`), hence string literals round-trip (`parseStr_enc`);
decimal integers round-trip (`parseInt_enc`); arrays (`parseStrArr_enc`),
the headers object (`parseHdrs_enc`) and the field loop
(`parseRecFields_enc`) round-trip by induction; the decoded field loop is
`foldl applyField` over the emitted fields
(`foldl_applyField_recordingFields`); and loading `saveBytes` restores the
recording (`loadFromBytes_save`). -/

theorem skipWs_ws_append (w l : List Nat)
    (hw : ∀ b ∈ w, isWsByte b = true) : skipWs (w ++ l) = skipWs l := by
  induction w with
  | nil => rfl
  | cons b w ih =>
    simp only [List.cons_append, skipWs]
    rw [if_pos (hw b (by simp))]
    exact ih (fun x hx => hw x (by simp [hx]))

theorem skipWs_not_ws (b : Nat) (l : List Nat) (h : isWsByte b = false) :
    skipWs (b :: l) = b :: l := by
  simp only [skipWs]
  rw [if_neg (by simp [h])]

theorem nlIndent_ws (k : Nat) : ∀ b ∈ nlIndent k, isWsByte b = true := by
  intro b hb
  simp only [nlIndent, List.mem_cons] at hb
  rcases hb with rfl | hb
  · rfl
  · rw [List.eq_of_mem_replicate hb]
    rfl

theorem hexVal_hexLowerDigit : ∀ d, d < 16 → hexVal (hexLowerDigit d) = some d := by
  decide

theorem char_valid_nat (c : Char) :
    c.toNat < 0xD800 ∨ (0xDFFF < c.toNat ∧ c.toNat < 0x110000) := by
  rcases c.valid with h | ⟨h1, h2⟩
  · exact Or.inl (UInt32.toNat_lt_of_lt (by decide) h)
  · exact Or.inr ⟨UInt32.lt_toNat_of_lt (by decide) h1,
      UInt32.toNat_lt_of_lt (by decide) h2⟩

theorem strChunk_escChar (c : Char) (l : List Nat) :
    ∃ b bs, escCharBytes c = b :: bs ∧ b ≠ 0x22 ∧
      strChunk b (bs ++ l) = some (c, l) := by
  have hofn := Char.ofNat_toNat c
  by_cases h1 : c.toNat = 0x22
  · have hc : c = '"' := by rw [← hofn, h1]
    subst hc
    exact ⟨0x5C, [0x22], by decide, by decide, rfl⟩
  · by_cases h2 : c.toNat = 0x5C
    · have hc : c = '\\' := by rw [← hofn, h2]
      subst hc
      exact ⟨0x5C, [0x5C], by decide, by decide, rfl⟩
    · by_cases h3 : c.toNat = 0x0A
      · have hc : c = '\n' := by rw [← hofn, h3]
        subst hc
        exact ⟨0x5C, [0x6E], by decide, by decide, rfl⟩
      · by_cases h4 : c.toNat = 0x0D
        · have hc : c = '\r' := by rw [← hofn, h4]
          subst hc
          exact ⟨0x5C, [0x72], by decide, by decide, rfl⟩
        · by_cases h5 : c.toNat = 0x09
          · have hc : c = '\t' := by rw [← hofn, h5]
            subst hc
            exact ⟨0x5C, [0x74], by decide, by decide, rfl⟩
          · by_cases h6 : c.toNat < 0x20 ∨ c.toNat = 0x3C ∨ c.toNat = 0x3E ∨ c.toNat = 0x26
            · have henc : escCharBytes c =
                  0x5C :: [0x75, 0x30, 0x30, hexLowerDigit (c.toNat / 16),
                    hexLowerDigit (c.toNat % 16)] := by
                simp only [escCharBytes]
                rw [if_neg h1, if_neg h2, if_neg h3, if_neg h4, if_neg h5, if_pos h6]
              have hd1 := hexVal_hexLowerDigit (c.toNat / 16) (by omega)
              have hd2 := hexVal_hexLowerDigit (c.toNat % 16) (by omega)
              have harg : ((0 * 16 + 0) * 16 + c.toNat / 16) * 16 + c.toNat % 16 =
                  c.toNat := by omega
              have hvc : validCp c.toNat = true := by
                simp only [validCp, Bool.or_eq_true, decide_eq_true_eq]
                omega
              refine ⟨0x5C, _, henc, by decide, ?_⟩
              simp only [List.cons_append, List.nil_append, strChunk, hd1, hd2]
              rw [show hexVal 0x30 = some 0 from rfl]
              dsimp only
              rw [harg, hvc, if_pos rfl, hofn]
              simp only [if_true]
            · by_cases h7 : c.toNat = 0x2028 ∨ c.toNat = 0x2029
              · rcases h7 with h7 | h7
                · have hc : c = Char.ofNat 0x2028 := by rw [← hofn, h7]
                  subst hc
                  refine ⟨0x5C, [0x75, 0x32, 0x30, 0x32, 0x38], by decide, by decide, ?_⟩
                  rfl
                · have hc : c = Char.ofNat 0x2029 := by rw [← hofn, h7]
                  subst hc
                  refine ⟨0x5C, [0x75, 0x32, 0x30, 0x32, 0x39], by decide, by decide, ?_⟩
                  rfl
              · have henu : escCharBytes c = utf8Bytes c.toNat := by
                  simp only [escCharBytes]
                  rw [if_neg h1, if_neg h2, if_neg h3, if_neg h4, if_neg h5,
                    if_neg h6, if_neg h7]
                have hge : 0x20 ≤ c.toNat := by omega
                have hval := char_valid_nat c
                by_cases ha : c.toNat < 0x80
                · have hu : utf8Bytes c.toNat = [c.toNat] := by
                    simp only [utf8Bytes]
                    rw [if_pos ha]
                  refine ⟨c.toNat, [], by rw [henu, hu], h1, ?_⟩
                  simp only [List.nil_append, strChunk]
                  rw [if_neg h2, if_neg (by omega), if_pos ha, hofn]
                · by_cases hb : c.toNat < 0x800
                  · have hu : utf8Bytes c.toNat =
                        (0xC0 + c.toNat / 64) :: [0x80 + c.toNat % 64] := by
                      simp only [utf8Bytes]
                      rw [if_neg ha, if_pos hb]
                    refine ⟨0xC0 + c.toNat / 64, [0x80 + c.toNat % 64],
                      by rw [henu, hu], by omega, ?_⟩
                    simp only [List.cons_append, List.nil_append, strChunk]
                    rw [if_neg (by omega), if_neg (by omega), if_neg (by omega),
                      if_neg (by omega), if_pos (by omega)]
                    have harg : (0xC0 + c.toNat / 64 - 0xC0) * 64 +
                        (0x80 + c.toNat % 64 - 0x80) = c.toNat := by omega
                    simp only [if_pos (by constructor <;> omega :
                      0x80 ≤ 0x80 + c.toNat % 64 ∧ 0x80 + c.toNat % 64 < 0xC0)]
                    rw [harg, if_pos (by omega), hofn]
                  · by_cases hcc : c.toNat < 0x10000
                    · have hu : utf8Bytes c.toNat =
                          (0xE0 + c.toNat / 4096) :: [0x80 + c.toNat / 64 % 64,
                            0x80 + c.toNat % 64] := by
                        simp only [utf8Bytes]
                        rw [if_neg ha, if_neg hb, if_pos hcc]
                      refine ⟨0xE0 + c.toNat / 4096, [0x80 + c.toNat / 64 % 64,
                        0x80 + c.toNat % 64], by rw [henu, hu], by omega, ?_⟩
                      have hvc : validCp c.toNat = true := by
                        simp only [validCp, Bool.or_eq_true, Bool.and_eq_true,
                          decide_eq_true_eq]
                        rcases hval with hv | hv
                        · exact Or.inl hv
                        · exact Or.inr ⟨by omega, hv.2⟩
                      simp only [List.cons_append, List.nil_append, strChunk]
                      rw [if_neg (by omega), if_neg (by omega), if_neg (by omega),
                        if_neg (by omega), if_neg (by omega), if_pos (by omega)]
                      simp only [if_pos (by refine ⟨⟨?_, ?_⟩, ?_, ?_⟩ <;> omega :
                        (0x80 ≤ 0x80 + c.toNat / 64 % 64 ∧ 0x80 + c.toNat / 64 % 64 < 0xC0) ∧
                          0x80 ≤ 0x80 + c.toNat % 64 ∧ 0x80 + c.toNat % 64 < 0xC0)]
                      have harg : (0xE0 + c.toNat / 4096 - 0xE0) * 4096 +
                          (0x80 + c.toNat / 64 % 64 - 0x80) * 64 +
                          (0x80 + c.toNat % 64 - 0x80) = c.toNat := by omega
                      rw [harg, if_pos ⟨by omega, hvc⟩, hofn]
                    · have hlt : c.toNat < 0x110000 := by
                        rcases hval with hv | hv
                        · omega
                        · exact hv.2
                      have hu : utf8Bytes c.toNat =
                          (0xF0 + c.toNat / 262144) :: [0x80 + c.toNat / 4096 % 64,
                            0x80 + c.toNat / 64 % 64, 0x80 + c.toNat % 64] := by
                        simp only [utf8Bytes]
                        rw [if_neg ha, if_neg hb, if_neg hcc]
                      refine ⟨0xF0 + c.toNat / 262144, [0x80 + c.toNat / 4096 % 64,
                        0x80 + c.toNat / 64 % 64, 0x80 + c.toNat % 64],
                        by rw [henu, hu], by omega, ?_⟩
                      simp only [List.cons_append, List.nil_append, strChunk]
                      rw [if_neg (by omega), if_neg (by omega), if_neg (by omega),
                        if_neg (by omega), if_neg (by omega), if_neg (by omega),
                        if_pos (by omega)]
                      simp only [if_pos (by refine ⟨⟨?_, ?_⟩, ⟨?_, ?_⟩, ?_, ?_⟩ <;> omega :
                        (0x80 ≤ 0x80 + c.toNat / 4096 % 64 ∧ 0x80 + c.toNat / 4096 % 64 < 0xC0) ∧
                          (0x80 ≤ 0x80 + c.toNat / 64 % 64 ∧ 0x80 + c.toNat / 64 % 64 < 0xC0) ∧
                          0x80 ≤ 0x80 + c.toNat % 64 ∧ 0x80 + c.toNat % 64 < 0xC0)]
                      have harg : (0xF0 + c.toNat / 262144 - 0xF0) * 262144 +
                          (0x80 + c.toNat / 4096 % 64 - 0x80) * 4096 +
                          (0x80 + c.toNat / 64 % 64 - 0x80) * 64 +
                          (0x80 + c.toNat % 64 - 0x80) = c.toNat := by omega
                      rw [harg, if_pos ⟨by omega, by omega⟩, hofn]

theorem length_le_flatMap_escCharBytes (s : List Char) :
    s.length ≤ (s.flatMap escCharBytes).length := by
  induction s with
  | nil => simp
  | cons c s ih =>
    simp only [List.flatMap_cons, List.length_append, List.length_cons]
    have h1 : 1 ≤ (escCharBytes c).length := by
      obtain ⟨b, bs, henc, -, -⟩ := strChunk_escChar c []
      rw [henc]
      simp
    omega

theorem parseStrBodyF_enc (s : List Char) (rest : List Nat) :
    ∀ fuel, s.length < fuel →
      parseStrBodyF fuel (s.flatMap escCharBytes ++ 0x22 :: rest) =
        some (s, rest) := by
  induction s with
  | nil =>
    intro fuel hf
    cases fuel with
    | zero => exact absurd hf (by simp)
    | succ f => rfl
  | cons c s ih =>
    intro fuel hf
    cases fuel with
    | zero => exact absurd hf (by simp)
    | succ f =>
      obtain ⟨b, bs, henc, hb22, hchunk⟩ :=
        strChunk_escChar c (s.flatMap escCharBytes ++ 0x22 :: rest)
      rw [List.flatMap_cons, List.append_assoc, henc, List.cons_append]
      rw [parseStrBodyF]
      rw [if_neg hb22, hchunk]
      dsimp only
      rw [List.length_cons] at hf
      rw [ih f (by omega)]
      rfl

theorem parseStrBody_enc (s : List Char) (rest : List Nat) :
    parseStrBody (s.flatMap escCharBytes ++ 0x22 :: rest) = some (s, rest) := by
  have hlen := length_le_flatMap_escCharBytes s
  have h : s.length < (s.flatMap escCharBytes ++ 0x22 :: rest).length + 1 := by
    rw [List.length_append, List.length_cons]
    omega
  exact parseStrBodyF_enc s rest _ h

theorem parseStr_enc (w : List Nat) (hw : ∀ b ∈ w, isWsByte b = true)
    (s : String) (rest : List Nat) :
    parseStr (w ++ (jsonStrBytes s ++ rest)) = some (s, rest) := by
  have hshape : jsonStrBytes s ++ rest =
      0x22 :: (s.data.flatMap escCharBytes ++ 0x22 :: rest) := by
    simp [jsonStrBytes]
  rw [parseStr, hshape, skipWs_ws_append w _ hw,
    skipWs_not_ws 0x22 _ (by rfl)]
  dsimp only
  rw [parseStrBody_enc s.data rest]
  rfl

theorem digitsLoop_digits (ds : List Nat) : ∀ acc rest,
    (∀ d ∈ ds, d < 10) →
    (∀ b ∈ rest.head?, isDigitByte b = false) →
    digitsLoop acc (ds.map (fun d => d + 0x30) ++ rest) =
      (ds.foldl (fun a d => a * 10 + d) acc, rest) := by
  induction ds with
  | nil =>
    intro acc rest _ hrest
    cases rest with
    | nil => rfl
    | cons b rs =>
      simp only [List.map_nil, List.nil_append, digitsLoop, List.foldl_nil]
      rw [if_neg (by simp [hrest b (by simp)])]
  | cons d ds ih =>
    intro acc rest hds hrest
    have hd : d < 10 := hds d (by simp)
    simp only [List.map_cons, List.cons_append, digitsLoop, List.foldl_cons]
    rw [if_pos (show isDigitByte (d + 0x30) = true from by simp [isDigitByte]; omega)]
    rw [show d + 0x30 - 0x30 = d from by omega]
    exact ih _ _ (fun x hx => hds x (by simp [hx])) hrest

theorem digitsRevFuel_lt_ten (f : Nat) : ∀ n d, d ∈ digitsRevFuel f n → d < 10 := by
  induction f with
  | zero =>
    intro n d hd
    simp [digitsRevFuel] at hd
  | succ f ih =>
    intro n d hd
    simp only [digitsRevFuel] at hd
    by_cases h : n = 0
    · rw [if_pos h] at hd
      simp at hd
    · rw [if_neg h] at hd
      rcases List.mem_cons.mp hd with rfl | hd
      · exact Nat.mod_lt _ (by omega)
      · exact ih _ _ hd

theorem digitsRevFuel_foldr (f : Nat) : ∀ n, n < 10 ^ f →
    (digitsRevFuel f n).foldr (fun d a => a * 10 + d) 0 = n := by
  induction f with
  | zero =>
    intro n h
    simp only [pow_zero, Nat.lt_one_iff] at h
    subst h
    rfl
  | succ f ih =>
    intro n h
    simp only [digitsRevFuel]
    by_cases h0 : n = 0
    · rw [if_pos h0, List.foldr_nil]
      omega
    · rw [if_neg h0, List.foldr_cons]
      have hp : 10 ^ (f + 1) = 10 ^ f * 10 := pow_succ 10 f
      rw [ih (n / 10) (by omega)]
      omega

theorem natDecBytes_spec (n : Nat) : ∃ ds, natDecBytes n = ds.map (fun d => d + 0x30) ∧
    (∀ d ∈ ds, d < 10) ∧ ds ≠ [] ∧ ds.foldl (fun a d => a * 10 + d) 0 = n := by
  by_cases h0 : n = 0
  · subst h0
    exact ⟨[0], by decide, by decide, by decide, by decide⟩
  · refine ⟨(digitsRevFuel n n).reverse, ?_, ?_, ?_, ?_⟩
    · simp only [natDecBytes]
      rw [if_neg h0]
    · intro d hd
      exact digitsRevFuel_lt_ten n n d (List.mem_reverse.mp hd)
    · simp only [ne_eq, List.reverse_eq_nil_iff]
      obtain ⟨f, rfl⟩ : ∃ f, n = f + 1 := ⟨n - 1, by omega⟩
      simp [digitsRevFuel, h0]
    · rw [List.foldl_reverse]
      exact digitsRevFuel_foldr n n
        (Nat.lt_pow_self (show (1 : Nat) < 10 from by norm_num) n)

theorem parseNat_enc (n : Nat) (rest : List Nat)
    (hrest : ∀ b ∈ rest.head?, isDigitByte b = false) :
    parseNat (natDecBytes n ++ rest) = some (n, rest) := by
  obtain ⟨ds, hmap, hlt, hne, hfold⟩ := natDecBytes_spec n
  cases ds with
  | nil => exact absurd rfl hne
  | cons d ds =>
    have hd : d < 10 := hlt d (by simp)
    have hdig : isDigitByte (d + 0x30) = true := by
      simp [isDigitByte]
      omega
    have hloop := digitsLoop_digits (d :: ds) 0 rest hlt hrest
    rw [hmap]
    simp only [List.map_cons, List.cons_append] at hloop ⊢
    simp only [parseNat, hdig, if_true]
    rw [hloop, hfold]

theorem natDecBytes_head (n : Nat) :
    ∃ d ds, natDecBytes n = d :: ds ∧ isDigitByte d = true ∧
      isWsByte d = false ∧ d ≠ 0x2D := by
  obtain ⟨ds, hmap, hlt, hne, -⟩ := natDecBytes_spec n
  cases ds with
  | nil => exact absurd rfl hne
  | cons d ds =>
    have hd : d < 10 := hlt d (by simp)
    refine ⟨d + 0x30, ds.map (fun x => x + 0x30), by rw [hmap]; rfl, ?_, ?_, by omega⟩
    · simp [isDigitByte]
      omega
    · simp [isWsByte]


theorem parseInt_enc (w : List Nat) (hw : ∀ b ∈ w, isWsByte b = true)
    (i : Int) (rest : List Nat)
    (hrest : ∀ b ∈ rest.head?, isDigitByte b = false) :
    parseInt (w ++ (intDecBytes i ++ rest)) = some (i, rest) := by
  by_cases hneg : i < 0
  · have hshape : intDecBytes i ++ rest = 0x2D :: (natDecBytes i.natAbs ++ rest) := by
      simp only [intDecBytes]
      rw [if_pos hneg, List.cons_append]
    simp only [parseInt]
    rw [hshape, skipWs_ws_append _ _ hw, skipWs_not_ws _ _ (by rfl)]
    dsimp only
    rw [parseNat_enc i.natAbs rest hrest]
    have hi : -(i.natAbs : Int) = i := by omega
    simp [hi]
    rw [abs_of_neg hneg, neg_neg]
  · obtain ⟨d, ds, hnd, hdig, hnws, hnm⟩ := natDecBytes_head i.natAbs
    have hshape : intDecBytes i ++ rest = d :: (ds ++ rest) := by
      simp only [intDecBytes]
      rw [if_neg hneg, hnd, List.cons_append]
    have hpn : parseNat (d :: (ds ++ rest)) = some (i.natAbs, rest) := by
      rw [← List.cons_append, ← hnd]
      exact parseNat_enc i.natAbs rest hrest
    simp only [parseInt]
    rw [hshape, skipWs_ws_append _ _ hw, skipWs_not_ws _ _ hnws]
    split
    · rename_i rest2 heq
      have : d = 0x2D := (List.cons.injEq d (ds ++ rest) 0x2D rest2).mp heq |>.1
      exact absurd this hnm
    · rw [hpn]
      have hi : ((i.natAbs : Nat) : Int) = i := by omega
      simp [hi]

theorem parseStr_enc0 (s : String) (rest : List Nat) :
    parseStr (jsonStrBytes s ++ rest) = some (s, rest) := by
  have h := parseStr_enc [] (by simp) s rest
  simpa using h

theorem parseStr_sp (s : String) (rest : List Nat) :
    parseStr (0x20 :: (jsonStrBytes s ++ rest)) = some (s, rest) := by
  have h := parseStr_enc [0x20] (by decide) s rest
  simpa using h

theorem skipWs_jsonStr (s : String) (t : List Nat) :
    skipWs (jsonStrBytes s ++ t) = jsonStrBytes s ++ t := by
  simp only [jsonStrBytes, List.cons_append]
  rw [skipWs_not_ws _ _ (by rfl)]

theorem jsonStrBytes_length (s : String) : 1 ≤ (jsonStrBytes s).length := by
  simp [jsonStrBytes]

theorem joinBytes_length_ge (sep : List Nat) :
    ∀ xs : List (List Nat), (∀ x ∈ xs, 1 ≤ x.length) →
      xs.length ≤ (joinBytes sep xs).length := by
  intro xs
  induction xs with
  | nil => intro _; simp
  | cons x xs ih =>
    intro hx
    cases xs with
    | nil =>
      simpa using hx x (by simp)
    | cons y ys =>
      have h1 : 1 ≤ x.length := hx x (by simp)
      have h2 := ih (fun z hz => hx z (by simp [hz]))
      simp only [joinBytes, List.length_append, List.length_cons] at h2 ⊢
      omega

theorem parseStrArrElems_enc (vs : List String) :
    ∀ fuel w rest, vs.length < fuel →
      (∀ b ∈ w, isWsByte b = true) → vs ≠ [] →
      parseStrArrElems fuel
          (w ++ (joinBytes (0x2C :: nlIndent 6) (vs.map jsonStrBytes) ++
            (nlIndent 4 ++ (0x5D :: rest)))) =
        some (vs, rest) := by
  induction vs with
  | nil => intro _ _ _ _ _ hne; exact absurd rfl hne
  | cons v vs ih =>
    intro fuel w rest hf hw _
    cases fuel with
    | zero => exact absurd hf (by omega)
    | succ f =>
      cases vs with
      | nil =>
        rw [parseStrArrElems]
        simp only [List.map_cons, List.map_nil, joinBytes]
        rw [parseStr_enc w hw v _]
        dsimp only
        rw [skipWs_ws_append _ _ (nlIndent_ws 4), skipWs_not_ws _ _ (by rfl)]
      | cons v2 vs2 =>
        rw [parseStrArrElems]
        simp only [List.map_cons, joinBytes, List.append_assoc, List.cons_append,
          List.nil_append]
        rw [show parseStr (w ++ (jsonStrBytes v ++ (0x2C :: (nlIndent 6 ++
            (joinBytes (0x2C :: nlIndent 6) (jsonStrBytes v2 :: vs2.map jsonStrBytes) ++
              (nlIndent 4 ++ (0x5D :: rest))))))) =
          some (v, 0x2C :: (nlIndent 6 ++
            (joinBytes (0x2C :: nlIndent 6) (jsonStrBytes v2 :: vs2.map jsonStrBytes) ++
              (nlIndent 4 ++ (0x5D :: rest)))))
          from parseStr_enc w hw v _]
        dsimp only
        rw [skipWs_not_ws _ _ (by rfl)]
        dsimp only
        have hrec := ih f (nlIndent 6) rest (by simp at hf ⊢; omega) (nlIndent_ws 6)
          (by simp)
        simp only [List.map_cons] at hrec
        rw [hrec]
        rfl

theorem parseStrArr_enc (w : List Nat) (hw : ∀ b ∈ w, isWsByte b = true)
    (vs : List String) (rest : List Nat) :
    parseStrArr (w ++ (jsonArrBytes vs ++ rest)) = some (vs, rest) := by
  cases vs with
  | nil =>
    have hsh : jsonArrBytes [] ++ rest = 0x5B :: (0x5D :: rest) := rfl
    simp only [parseStrArr]
    rw [hsh, skipWs_ws_append _ _ hw, skipWs_not_ws _ _ (by rfl)]
    dsimp only
    rw [skipWs_not_ws _ _ (by rfl)]
  | cons v vs2 =>
    cases vs2 with
    | nil =>
      have hsh : jsonArrBytes [v] ++ rest =
          0x5B :: (nlIndent 6 ++ (jsonStrBytes v ++ (nlIndent 4 ++ (0x5D :: rest)))) := by
        simp [jsonArrBytes, joinBytes]
      simp only [parseStrArr]
      rw [hsh, skipWs_ws_append _ _ hw, skipWs_not_ws _ _ (by rfl)]
      dsimp only
      rw [skipWs_ws_append _ _ (nlIndent_ws 6), skipWs_jsonStr]
      split
      · rename_i r2 heq
        simp [jsonStrBytes] at heq
      · have hrec := parseStrArrElems_enc [v]
          ((jsonStrBytes v ++ (nlIndent 4 ++ (0x5D :: rest))).length + 1) [] rest
          (by simp [jsonStrBytes]) (by simp) (by simp)
        simpa [joinBytes] using hrec
    | cons v2 vs3 =>
      have hsh : jsonArrBytes (v :: v2 :: vs3) ++ rest =
          0x5B :: (nlIndent 6 ++ (jsonStrBytes v ++ (0x2C :: (nlIndent 6 ++
            (joinBytes (0x2C :: nlIndent 6) (jsonStrBytes v2 :: vs3.map jsonStrBytes) ++
              (nlIndent 4 ++ (0x5D :: rest))))))) := by
        simp [jsonArrBytes, joinBytes, List.append_assoc]
      have hj := joinBytes_length_ge (0x2C :: nlIndent 6)
        (jsonStrBytes v2 :: vs3.map jsonStrBytes) (by
          intro x hx
          simp only [List.mem_cons, List.mem_map] at hx
          rcases hx with rfl | ⟨s2, -, rfl⟩
          · exact jsonStrBytes_length v2
          · exact jsonStrBytes_length s2)
      simp only [parseStrArr]
      rw [hsh, skipWs_ws_append _ _ hw, skipWs_not_ws _ _ (by rfl)]
      dsimp only
      rw [skipWs_ws_append _ _ (nlIndent_ws 6), skipWs_jsonStr]
      split
      · rename_i r2 heq
        simp [jsonStrBytes] at heq
      · have hrec := parseStrArrElems_enc (v :: v2 :: vs3)
          ((jsonStrBytes v ++ (0x2C :: (nlIndent 6 ++
            (joinBytes (0x2C :: nlIndent 6) (jsonStrBytes v2 :: vs3.map jsonStrBytes) ++
              (nlIndent 4 ++ (0x5D :: rest)))))).length + 1) [] rest
          (by
            simp only [List.length_cons, List.length_append, List.map_cons,
              List.length_map] at hj ⊢
            omega) (by simp) (by simp)
        simpa [joinBytes] using hrec

theorem parseStrArr_sp (vs : List String) (rest : List Nat) :
    parseStrArr (0x20 :: (jsonArrBytes vs ++ rest)) = some (vs, rest) := by
  have h := parseStrArr_enc [0x20] (by decide) vs rest
  simpa using h

theorem parseHdrFields_enc (h : MultiMap) :
    ∀ fuel w rest, h.length < fuel →
      (∀ b ∈ w, isWsByte b = true) → h ≠ [] →
      parseHdrFields fuel
          (w ++ (joinBytes (0x2C :: nlIndent 4)
              (h.map fun kv => jsonStrBytes kv.1 ++ [0x3A, 0x20] ++ jsonArrBytes kv.2) ++
            (nlIndent 2 ++ (0x7D :: rest)))) =
        some (h, rest) := by
  induction h with
  | nil => intro _ _ _ _ _ hne; exact absurd rfl hne
  | cons kv h2 ih =>
    obtain ⟨k, vs⟩ := kv
    intro fuel w rest hf hw _
    cases fuel with
    | zero => exact absurd hf (by omega)
    | succ f =>
      cases h2 with
      | nil =>
        rw [parseHdrFields]
        simp only [List.map_cons, List.map_nil, joinBytes, List.append_assoc,
          List.cons_append, List.nil_append]
        rw [parseStr_enc w hw k _]
        dsimp only
        rw [skipWs_not_ws _ _ (by rfl)]
        dsimp only
        rw [parseStrArr_sp vs _]
        dsimp only
        rw [skipWs_ws_append _ _ (nlIndent_ws 2), skipWs_not_ws _ _ (by rfl)]
      | cons kv2 h3 =>
        rw [parseHdrFields]
        simp only [List.map_cons, joinBytes, List.append_assoc, List.cons_append,
          List.nil_append]
        rw [parseStr_enc w hw k _]
        dsimp only
        rw [skipWs_not_ws _ _ (by rfl)]
        dsimp only
        rw [parseStrArr_sp vs _]
        dsimp only
        rw [skipWs_not_ws _ _ (by rfl)]
        dsimp only
        have hrec := ih f (nlIndent 4) rest (by simp at hf ⊢; omega) (nlIndent_ws 4)
          (by simp)
        simp only [List.map_cons, List.append_assoc, List.cons_append,
          List.nil_append] at hrec
        rw [hrec]
        rfl

theorem parseHdrs_enc (w : List Nat) (hw : ∀ b ∈ w, isWsByte b = true)
    (h : MultiMap) (rest : List Nat) :
    parseHdrs (w ++ (jsonHeadersBytes h ++ rest)) = some (h, rest) := by
  cases h with
  | nil =>
    have hsh : jsonHeadersBytes [] ++ rest = 0x7B :: (0x7D :: rest) := rfl
    simp only [parseHdrs]
    rw [hsh, skipWs_ws_append _ _ hw, skipWs_not_ws _ _ (by rfl)]
    dsimp only
    rw [skipWs_not_ws _ _ (by rfl)]
  | cons kv h2 =>
    obtain ⟨k, vs⟩ := kv
    cases h2 with
    | nil =>
      have hsh : jsonHeadersBytes [(k, vs)] ++ rest =
          0x7B :: (nlIndent 4 ++ (jsonStrBytes k ++ (0x3A :: (0x20 ::
            (jsonArrBytes vs ++ (nlIndent 2 ++ (0x7D :: rest))))))) := by
        simp [jsonHeadersBytes, joinBytes, List.append_assoc]
      simp only [parseHdrs]
      rw [hsh, skipWs_ws_append _ _ hw, skipWs_not_ws _ _ (by rfl)]
      dsimp only
      rw [skipWs_ws_append _ _ (nlIndent_ws 4), skipWs_jsonStr]
      split
      · rename_i r2 heq
        simp [jsonStrBytes] at heq
      · have hrec := parseHdrFields_enc [(k, vs)]
          ((jsonStrBytes k ++ (0x3A :: (0x20 ::
            (jsonArrBytes vs ++ (nlIndent 2 ++ (0x7D :: rest)))))).length + 1) [] rest
          (by simp [jsonStrBytes]) (by simp) (by simp)
        simpa [joinBytes] using hrec
    | cons kv2 h3 =>
      have hsh : jsonHeadersBytes ((k, vs) :: kv2 :: h3) ++ rest =
          0x7B :: (nlIndent 4 ++ (jsonStrBytes k ++ (0x3A :: (0x20 ::
            (jsonArrBytes vs ++ (0x2C :: (nlIndent 4 ++
              (joinBytes (0x2C :: nlIndent 4)
                ((kv2 :: h3).map fun kv => jsonStrBytes kv.1 ++ [0x3A, 0x20] ++
                  jsonArrBytes kv.2) ++
                (nlIndent 2 ++ (0x7D :: rest)))))))))) := by
        simp [jsonHeadersBytes, joinBytes, List.append_assoc]
      have hj := joinBytes_length_ge (0x2C :: nlIndent 4)
        ((kv2 :: h3).map fun kv => jsonStrBytes kv.1 ++ [0x3A, 0x20] ++
          jsonArrBytes kv.2) (by
          intro x hx
          simp only [List.mem_map] at hx
          obtain ⟨kv3, -, rfl⟩ := hx
          have := jsonStrBytes_length kv3.1
          simp only [List.length_append]
          omega)
      simp only [parseHdrs]
      rw [hsh, skipWs_ws_append _ _ hw, skipWs_not_ws _ _ (by rfl)]
      dsimp only
      rw [skipWs_ws_append _ _ (nlIndent_ws 4), skipWs_jsonStr]
      split
      · rename_i r2 heq
        simp [jsonStrBytes] at heq
      · have hrec := parseHdrFields_enc ((k, vs) :: kv2 :: h3)
          ((jsonStrBytes k ++ (0x3A :: (0x20 ::
            (jsonArrBytes vs ++ (0x2C :: (nlIndent 4 ++
              (joinBytes (0x2C :: nlIndent 4)
                ((kv2 :: h3).map fun kv => jsonStrBytes kv.1 ++ [0x3A, 0x20] ++
                  jsonArrBytes kv.2) ++
                (nlIndent 2 ++ (0x7D :: rest))))))))).length + 1) [] rest
          (by
            simp only [List.length_cons, List.length_append, List.length_map] at hj ⊢
            omega) (by simp) (by simp)
        simpa [joinBytes] using hrec

theorem parseHdrs_sp (h : MultiMap) (rest : List Nat) :
    parseHdrs (0x20 :: (jsonHeadersBytes h ++ rest)) = some (h, rest) := by
  have hh := parseHdrs_enc [0x20] (by decide) h rest
  simpa using hh

theorem parseInt_sp (v : Int) (rest : List Nat)
    (hrest : ∀ b ∈ rest.head?, isDigitByte b = false) :
    parseInt (0x20 :: (intDecBytes v ++ rest)) = some (v, rest) := by
  have hh := parseInt_enc [0x20] (by decide) v rest hrest
  simpa using hh

theorem parseFieldVal_status (acc : Recording) (l : List Nat) :
    parseFieldVal "status" acc l =
      (parseStr l).map (fun p => ({ acc with status := p.1 }, p.2)) := rfl

theorem parseFieldVal_statusCode (acc : Recording) (l : List Nat) :
    parseFieldVal "status_code" acc l =
      (parseInt l).map (fun p => ({ acc with statusCode := p.1 }, p.2)) := rfl

theorem parseFieldVal_proto (acc : Recording) (l : List Nat) :
    parseFieldVal "proto" acc l =
      (parseStr l).map (fun p => ({ acc with proto := p.1 }, p.2)) := rfl

theorem parseFieldVal_protoMajor (acc : Recording) (l : List Nat) :
    parseFieldVal "proto_major" acc l =
      (parseInt l).map (fun p => ({ acc with protoMajor := p.1 }, p.2)) := rfl

theorem parseFieldVal_protoMinor (acc : Recording) (l : List Nat) :
    parseFieldVal "proto_minor" acc l =
      (parseInt l).map (fun p => ({ acc with protoMinor := p.1 }, p.2)) := rfl

theorem parseFieldVal_headers (acc : Recording) (l : List Nat) :
    parseFieldVal "headers" acc l =
      (parseHdrs l).map (fun p => ({ acc with headers := p.1 }, p.2)) := rfl

theorem parseFieldVal_enc (f : JField) (acc : Recording) (tail : List Nat)
    (hok : fieldOk f) (hrest : ∀ b ∈ tail.head?, isDigitByte b = false) :
    parseFieldVal f.name acc (0x20 :: (f.valBytes ++ tail)) =
      some (applyField acc f, tail) := by
  cases f with
  | jstr n v =>
    rcases hok with rfl | rfl
    · dsimp only [JField.name, JField.valBytes]
      rw [parseFieldVal_status, parseStr_sp]
      rfl
    · dsimp only [JField.name, JField.valBytes]
      rw [parseFieldVal_proto, parseStr_sp]
      rfl
  | jint n v =>
    rcases hok with rfl | rfl | rfl
    · dsimp only [JField.name, JField.valBytes]
      rw [parseFieldVal_statusCode, parseInt_sp v tail hrest]
      rfl
    · dsimp only [JField.name, JField.valBytes]
      rw [parseFieldVal_protoMajor, parseInt_sp v tail hrest]
      rfl
    · dsimp only [JField.name, JField.valBytes]
      rw [parseFieldVal_protoMinor, parseInt_sp v tail hrest]
      rfl
  | jmap n h =>
    have hn : n = "headers" := hok
    subst hn
    dsimp only [JField.name, JField.valBytes]
    rw [parseFieldVal_headers, parseHdrs_sp]
    rfl

theorem parseRecFields_enc (fl : List JField) :
    ∀ fuel acc w rest, fl.length < fuel →
      (∀ b ∈ w, isWsByte b = true) → fl ≠ [] → (∀ f ∈ fl, fieldOk f) →
      parseRecFields fuel acc
          (w ++ (joinBytes (0x2C :: nlIndent 2) (fl.map encField) ++
            (nlIndent 0 ++ (0x7D :: rest)))) =
        some (fl.foldl applyField acc, rest) := by
  induction fl with
  | nil => intro _ _ _ _ _ _ hne _; exact absurd rfl hne
  | cons f fl2 ih =>
    intro fuel acc w rest hf hw _ hok
    cases fuel with
    | zero => exact absurd hf (by omega)
    | succ fu =>
      cases fl2 with
      | nil =>
        rw [parseRecFields]
        simp only [List.map_cons, List.map_nil, joinBytes, encField,
          List.append_assoc, List.cons_append, List.nil_append]
        rw [parseStr_enc w hw f.name _]
        dsimp only
        rw [skipWs_not_ws _ _ (by rfl)]
        dsimp only
        rw [parseFieldVal_enc f acc _ (hok f (by simp))
          (by intro b hb; simp [nlIndent] at hb; subst hb; rfl)]
        dsimp only
        rw [skipWs_ws_append _ _ (nlIndent_ws 0), skipWs_not_ws _ _ (by rfl)]
        rfl
      | cons f2 fl3 =>
        rw [parseRecFields]
        simp only [List.map_cons, joinBytes, encField, List.append_assoc,
          List.cons_append, List.nil_append]
        rw [parseStr_enc w hw f.name _]
        dsimp only
        rw [skipWs_not_ws _ _ (by rfl)]
        dsimp only
        rw [parseFieldVal_enc f acc _ (hok f (by simp))
          (by intro b hb; simp at hb; subst hb; rfl)]
        dsimp only
        rw [skipWs_not_ws _ _ (by rfl)]
        dsimp only
        have hrec := ih fu (applyField acc f) (nlIndent 2) rest
          (by simp at hf ⊢; omega) (nlIndent_ws 2) (by simp)
          (fun g hg => hok g (by simp [hg]))
        simp only [List.map_cons, encField, List.append_assoc, List.cons_append,
          List.nil_append] at hrec
        rw [hrec]
        rfl

theorem recordingFields_ok (r : Recording) : ∀ f ∈ recordingFields r, fieldOk f := by
  intro f hf
  simp only [recordingFields, List.mem_append] at hf
  rcases hf with ((((hf | hf) | hf) | hf) | hf) | hf <;>
    (split at hf <;> simp_all [fieldOk])

theorem encField_length (f : JField) : 1 ≤ (encField f).length := by
  have := jsonStrBytes_length f.name
  simp only [encField, List.length_append]
  omega

theorem parseRecording_save (r : Recording) :
    parseRecording (saveBytes r) =
      some ((recordingFields r).foldl applyField emptyRecording, 0x0A :: r.body) := by
  cases hfl : recordingFields r with
  | nil =>
    have hsh : saveBytes r = 0x7B :: (0x7D :: (0x0A :: r.body)) := by
      simp [saveBytes, encodeRecordingJson, hfl, jsonObjBytes]
    simp only [parseRecording]
    rw [hsh, skipWs_not_ws _ _ (by rfl)]
    dsimp only
    rw [skipWs_not_ws _ _ (by rfl)]
    rfl
  | cons f fl2 =>
    have hok : ∀ g ∈ f :: fl2, fieldOk g := hfl ▸ recordingFields_ok r
    cases fl2 with
    | nil =>
      have hsh : saveBytes r =
          0x7B :: (nlIndent 2 ++ (jsonStrBytes f.name ++ (0x3A :: (0x20 ::
            (f.valBytes ++ (nlIndent 0 ++ (0x7D :: (0x0A :: r.body)))))))) := by
        simp [saveBytes, encodeRecordingJson, hfl, jsonObjBytes, joinBytes,
          encField, List.append_assoc]
      simp only [parseRecording]
      rw [hsh, skipWs_not_ws _ _ (by rfl)]
      dsimp only
      rw [skipWs_ws_append _ _ (nlIndent_ws 2), skipWs_jsonStr]
      split
      · rename_i r2 heq
        simp [jsonStrBytes] at heq
      · have hrec := parseRecFields_enc [f]
          ((jsonStrBytes f.name ++ (0x3A :: (0x20 ::
            (f.valBytes ++ (nlIndent 0 ++ (0x7D :: (0x0A :: r.body))))))).length + 1)
          emptyRecording [] (0x0A :: r.body)
          (by simp [jsonStrBytes]) (by simp) (by simp) hok
        simpa [joinBytes, encField] using hrec
    | cons f2 fl3 =>
      have hj := joinBytes_length_ge (0x2C :: nlIndent 2) ((f2 :: fl3).map encField)
        (by
          intro x hx
          simp only [List.mem_map] at hx
          obtain ⟨g, -, rfl⟩ := hx
          exact encField_length g)
      have hsh : saveBytes r =
          0x7B :: (nlIndent 2 ++ (jsonStrBytes f.name ++ (0x3A :: (0x20 ::
            (f.valBytes ++ (0x2C :: (nlIndent 2 ++
              (joinBytes (0x2C :: nlIndent 2) ((f2 :: fl3).map encField) ++
                (nlIndent 0 ++ (0x7D :: (0x0A :: r.body))))))))))) := by
        simp [saveBytes, encodeRecordingJson, hfl, jsonObjBytes, joinBytes,
          encField, List.append_assoc]
      simp only [parseRecording]
      rw [hsh, skipWs_not_ws _ _ (by rfl)]
      dsimp only
      rw [skipWs_ws_append _ _ (nlIndent_ws 2), skipWs_jsonStr]
      split
      · rename_i r2 heq
        simp [jsonStrBytes] at heq
      · have hrec := parseRecFields_enc (f :: f2 :: fl3)
          ((jsonStrBytes f.name ++ (0x3A :: (0x20 ::
            (f.valBytes ++ (0x2C :: (nlIndent 2 ++
              (joinBytes (0x2C :: nlIndent 2) ((f2 :: fl3).map encField) ++
                (nlIndent 0 ++ (0x7D :: (0x0A :: r.body)))))))))).length + 1)
          emptyRecording [] (0x0A :: r.body)
          (by
            simp only [List.length_cons, List.length_append, List.length_map] at hj ⊢
            omega) (by simp) (by simp) hok
        simpa [joinBytes, encField] using hrec

theorem foldl_applyField_recordingFields (r : Recording) :
    (recordingFields r).foldl applyField emptyRecording =
      { r with headers := sortByKey r.headers, body := [] } := by
  obtain ⟨st, sc, pr, pj, pn, hd, bd⟩ := r
  by_cases h1 : st = "" <;> by_cases h2 : sc = 0 <;> by_cases h3 : pr = "" <;>
    by_cases h4 : pj = 0 <;> by_cases h5 : pn = 0 <;>
    by_cases h6 : hd = ([] : MultiMap) <;>
    simp_all [recordingFields, applyField, emptyRecording, sortByKey]

theorem loadFromBytes_save (r : Recording) :
    loadFromBytes (saveBytes r) =
      Except.ok { r with headers := sortByKey r.headers } := by
  simp only [loadFromBytes]
  rw [parseRecording_save, foldl_applyField_recordingFields]
  rfl

theorem save_ok_shape (r : Recording) (path : String) (o : SaveOracle) (fs : FS)
    (hok : (save r path o fs).1 = Except.ok ()) :
    ∃ fs2, (save r path o fs).2 = FS.set fs2 path (saveBytes r) := by
  by_cases hm : o.mkdirOk = false
  · simp [save, hm] at hok
  · by_cases ht : o.tempOk = false
    · simp [save, hm, ht] at hok
    · by_cases hwj : o.writeJsonOk = false
      · simp [save, hm, ht, hwj] at hok
      · by_cases hwb : o.writeBodyOk = false
        · simp [save, hm, ht, hwj, hwb] at hok
        · by_cases hr : o.renameOk = true
          · refine ⟨FS.remove
              (FS.set (FS.set fs (path ++ o.tmpSuffix) [])
                (path ++ o.tmpSuffix) (saveBytes r)) (path ++ o.tmpSuffix), ?_⟩
            simp [save, hm, ht, hwj, hwb, hr]
          · simp [save, hm, ht, hwj, hwb, hr] at hok

/-- C2. Round-trip of the store: a successful `Save(r, p)` followed by
`LoadRecording(p)` yields a Recording whose `Status`, `StatusCode`, `Proto`,
`ProtoMajor`, `ProtoMinor` and body bytes are exactly equal to those of `r`,
and whose `Headers` hold the same key/value associations (the loaded list is
the key-sorted permutation of the original, i.e. equal as a Go map). -/
theorem save_load_round_trip (r : Recording) (path : String) (o : SaveOracle)
    (fs : FS) (hok : (save r path o fs).1 = Except.ok ()) :
    loadRecording (save r path o fs).2 path =
      Except.ok { r with headers := sortByKey r.headers } ∧
    ∀ r', loadRecording (save r path o fs).2 path = Except.ok r' →
      r'.status = r.status ∧ r'.statusCode = r.statusCode ∧ r'.proto = r.proto ∧
      r'.protoMajor = r.protoMajor ∧ r'.protoMinor = r.protoMinor ∧
      r'.headers.Perm r.headers ∧ r'.body = r.body := by
  obtain ⟨fs2, hshape⟩ := save_ok_shape r path o fs hok
  have hload : loadRecording (save r path o fs).2 path =
      Except.ok { r with headers := sortByKey r.headers } := by
    rw [hshape]
    simp only [loadRecording, FS.get_set_self]
    exact loadFromBytes_save r
  refine ⟨hload, ?_⟩
  intro r' hr'
  rw [hload] at hr'
  have heq : r' = { r with headers := sortByKey r.headers } := by
    cases hr'
    rfl
  subst heq
  refine ⟨rfl, rfl, rfl, rfl, rfl, ?_, rfl⟩
  exact List.perm_insertionSort _ r.headers

theorem save_load_round_trip_witness :
    (save recSmall "p" ⟨true, true, ".tmp1", true, true, true⟩ []).1 =
        Except.ok () ∧
      loadRecording
          (save recSmall "p" ⟨true, true, ".tmp1", true, true, true⟩ []).2 "p" =
        Except.ok { recSmall with headers := sortByKey recSmall.headers } := by
  refine ⟨by rfl, ?_⟩
  exact (save_load_round_trip recSmall "p" ⟨true, true, ".tmp1", true, true, true⟩
    [] (by rfl)).1

end Replay
